import Mathlib

/-
Verification of the incremental synchronization engine of the
google-drive-sync repository (src/gdrive_sync).

The Python sources are shallowly embedded: the metadata dictionary
becomes an association list, the remote Drive tree becomes an inductive
rose tree (the remote store is acyclic by construction), the local file
system becomes the set of existing relative file paths, and the mutable
SyncManager state (metadata, file system, collected drive ids,
statistics) is threaded explicitly.  Exceptions raised by the Drive
client are modelled by failure flags in the environment; a raised and
propagated SyncError is the `Option String` component of a result.
An extra ghost counter `exports` counts content-export calls made to
the Drive client, so "no re-fetch" claims are expressible.
-/

namespace GDriveSync

/-! ## Data model: metadata.py -/

/-- One tracked item record, the value stored under a file id in
`metadata.data["files"]` (Metadata.add_file, metadata.py:75-83). -/
structure FileRecord where
  path : String
  modified_time : String
  ftype : String
  size : Option Nat
  last_synced : String
deriving Repr, DecidableEq

/-- The `files` mapping of the metadata, a Python dict embedded as an
association list with insertion-ordered keys. -/
abbrev Files := List (String × FileRecord)

/-- Python dict lookup `self.data["files"].get(file_id)`
(Metadata.get_file, metadata.py:85-86). -/
def getFile : Files → String → Option FileRecord
  | [], _ => none
  | (k, v) :: rest, fileId => if k = fileId then some v else getFile rest fileId

/-- Python dict assignment `self.data["files"][file_id] = record`:
replaces the value in place if the key exists, else appends. -/
def dictInsert : Files → String → FileRecord → Files
  | [], fileId, r => [(fileId, r)]
  | (k, v) :: rest, fileId, r =>
      if k = fileId then (k, r) :: rest else (k, v) :: dictInsert rest fileId r

/-- Python dict `pop(file_id, None)` restricted to its effect on the
mapping (Metadata.remove_file, metadata.py:88-89). -/
def removeFile : Files → String → Files
  | [], _ => []
  | (k, v) :: rest, fileId => if k = fileId then rest else (k, v) :: removeFile rest fileId

/-- Metadata.add_file (metadata.py:75-83); `now` is the
`datetime.utcnow()` stamp for `last_synced`. -/
def addFile (files : Files) (fileId path modifiedTime fileType : String)
    (size : Option Nat) (now : String) : Files :=
  dictInsert files fileId ⟨path, modifiedTime, fileType, size, now⟩

/-- Metadata.is_file_changed (metadata.py:94-98): true when no record
exists, or when the stored marker string differs from the supplied one.
(Records built by add_file are never the empty dict, so Python's
falsiness test on the record coincides with absence.) -/
def isFileChanged (files : Files) (fileId driveModifiedTime : String) : Bool :=
  match getFile files fileId with
  | none => true
  | some fileMeta => fileMeta.modified_time != driveModifiedTime

/-- Metadata.get_deleted_files (metadata.py:100-105): the tracked
records whose id is absent from the supplied set of current drive ids. -/
def getDeletedFiles (files : Files) (currentDriveIds : List String) : Files :=
  files.filter (fun p => !(currentDriveIds.contains p.1))

/-- Metadata.tracked_paths (metadata.py:114-115), as the list of stored
paths (the Python set is only used for membership tests). -/
def trackedPaths (files : Files) : List String :=
  files.map (fun p => p.2.path)

/-- The whole metadata document (Metadata.data, schema v3.0). -/
structure MetadataData where
  version : String
  drive_folder_id : Option String
  drive_folder_name : Option String
  drive_folder_path : Option String
  last_sync : Option String
  files : Files
deriving Repr, DecidableEq

/-- Metadata._create_empty (metadata.py:51-59). -/
def createEmpty : MetadataData :=
  { version := "3.0", drive_folder_id := none, drive_folder_name := none,
    drive_folder_path := none, last_sync := none, files := [] }

/-- Metadata.clear (metadata.py:110-111). -/
def clearData (_md : MetadataData) : MetadataData := createEmpty

/-! ## Relative paths and the local file system

A local path relative to the sync target directory is either kept as a
component list (while walking) or rendered to the string form stored in
the metadata (`str(path.relative_to(self.target_dir))`). The local file
system is the set of relative paths of the files that exist; directory
creation (`mkdir`) has no observable effect in this model. -/

/-- String form of a relative path, as produced by `str()` on a
`pathlib` relative path: the components joined by "/". -/
def renderPath : List String → String
  | [] => ""
  | [x] => x
  | x :: rest => x ++ "/" ++ renderPath rest

/-- Join a parent directory string and a file name, as `parent / name`. -/
def joinRel (parent name : String) : String :=
  if parent = "" then name else parent ++ "/" ++ name

/-- Split a character list on a separator character (the semantics of
splitting a path string on "/"). -/
def splitOnChar (sep : Char) : List Char → List (List Char)
  | [] => [[]]
  | c :: rest =>
    if c = sep then [] :: splitOnChar sep rest
    else
      match splitOnChar sep rest with
      | [] => [[c]]
      | g :: gs => (c :: g) :: gs

/-- The components of a rendered relative path. -/
def splitSlash (p : String) : List String :=
  (splitOnChar '/' p.toList).map String.mk

/-- Does `s` start with `pre`? -/
def strStartsWith (s pre : String) : Bool :=
  pre.toList.isPrefixOf s.toList

/-- Does `s` end with `tail`? -/
def strEndsWith (s tail : String) : Bool :=
  tail.toList.reverse.isPrefixOf s.toList.reverse

/-- Drop the first `n` characters of `s` (Python string slicing
`s[n:]`). -/
def strDrop (s : String) (n : Nat) : String :=
  String.mk (s.toList.drop n)

/-- Last component of a rendered relative path (`Path.name`). -/
def pathName (p : String) : String :=
  match (splitSlash p).reverse with
  | [] => ""
  | x :: _ => x

/-- All but the last component of a rendered relative path
(`Path.parent`, rendered). -/
def pathParent (p : String) : String :=
  renderPath (splitSlash p).dropLast

/-- Split a file name into `(Path.stem, Path.suffix)` following
CPython's pathlib: the extension starts at the last dot, provided that
dot is neither the first nor the last character of the name. -/
def stemExt (name : String) : String × String :=
  let cs := name.toList
  let afterRev := cs.reverse.takeWhile (fun c => c ≠ '.')
  if afterRev.length = cs.length then (name, "")
  else
    let i := cs.length - afterRev.length - 1
    if 0 < i ∧ i < cs.length - 1 then
      (String.mk (cs.take i), String.mk (cs.drop i))
    else (name, "")

/-- The local file system: the set of relative paths of existing files. -/
abbrev FS := List String

/-- Writing a file (creates the path if absent; overwriting leaves the
set unchanged). -/
def fsAdd (fs : FS) (p : String) : FS :=
  if fs.contains p then fs else p :: fs

/-- Models shutil.move(old, new) on the path set. -/
def fsMove (fs : FS) (old new : String) : FS :=
  fsAdd (fs.erase old) new

/-! ## The remote tree and the environment

drive_client.py type helpers, and an inductive model of the remote
folder tree: the remote store cannot be cyclic, so each folder's
listing is embedded as its child list.  `listFails` on a folder entry
means `DriveClient.list_files` raises for that folder; export failures
are per-id flags in the environment (raised inside `_sync_file` /
`_sync_google_sheet`, where the source catches them). -/

def MIME_document : String := "application/vnd.google-apps.document"
def MIME_spreadsheet : String := "application/vnd.google-apps.spreadsheet"
def MIME_folder : String := "application/vnd.google-apps.folder"

/-- DriveClient.is_google_doc (drive_client.py:246-247). -/
def isGoogleDoc (mimeType : String) : Bool := mimeType == MIME_document

/-- DriveClient.is_google_sheet (drive_client.py:249-250). -/
def isGoogleSheet (mimeType : String) : Bool := mimeType == MIME_spreadsheet

/-- DriveClient.is_folder (drive_client.py:252-253). -/
def isFolder (mimeType : String) : Bool := mimeType == MIME_folder

/-- DriveClient.is_supported_file (drive_client.py:255-256). -/
def isSupportedFile (mimeType : String) : Bool :=
  isGoogleDoc mimeType || isGoogleSheet mimeType

/-- One tab of a spreadsheet, as returned by get_sheet_tabs. -/
structure SheetTab where
  title : String
  sheetId : Nat
deriving Repr, DecidableEq

/-- One entry of a remote folder listing, with its own listing embedded
when it is a folder.  The `children`/`listFails` fields are meaningless
(and never consulted) for non-folder mime types. -/
inductive Entry where
  | mk (id name mimeType modifiedTime : String)
      (children : List Entry) (listFails : Bool)

def Entry.eid : Entry → String
  | .mk i _ _ _ _ _ => i

def Entry.ename : Entry → String
  | .mk _ n _ _ _ _ => n

def Entry.children : Entry → List Entry
  | .mk _ _ _ _ cs _ => cs

def Entry.listFails : Entry → Bool
  | .mk _ _ _ _ _ lf => lf

/-- The external Drive collaborator: tab listings, export failure
flags, and the current wall-clock stamp. -/
structure Env where
  sheetTabs : String → List SheetTab
  docExportFails : String → Bool
  sheetExportFails : String → Bool
  tabExportFails : String → Nat → Bool
  now : String

/-- DriveClient.get_sheet_tabs's `return sheets or [default]`
fallback (drive_client.py:165-187): never returns an empty list and
never raises (its own failures degrade to a synthetic Sheet1). -/
def getSheetTabs (env : Env) (fileId : String) : List SheetTab :=
  match env.sheetTabs fileId with
  | [] => [⟨"Sheet1", 0⟩]
  | tabs => tabs

/-! ## SyncManager state -/

/-- SyncManager.stats (sync_manager.py:24-32). -/
structure Stats where
  new : Nat
  updated : Nat
  moved : Nat
  deleted : Nat
  unchanged : Nat
  errors : Nat
  folders : Nat
deriving Repr, DecidableEq

def Stats.zero : Stats := ⟨0, 0, 0, 0, 0, 0, 0⟩

def Stats.incNew (s : Stats) : Stats := { s with new := s.new + 1 }
def Stats.incUpdated (s : Stats) : Stats := { s with updated := s.updated + 1 }
def Stats.incMoved (s : Stats) : Stats := { s with moved := s.moved + 1 }
def Stats.incDeleted (s : Stats) : Stats := { s with deleted := s.deleted + 1 }
def Stats.incUnchanged (s : Stats) : Stats := { s with unchanged := s.unchanged + 1 }
def Stats.incErrors (s : Stats) : Stats := { s with errors := s.errors + 1 }
def Stats.incFolders (s : Stats) : Stats := { s with folders := s.folders + 1 }

/-- The mutable state of one sync pass: the metadata `files` mapping,
the local file system, the collected `drive_file_ids`, the statistics,
and a ghost count of content-export calls made to the Drive client. -/
structure SyncState where
  files : Files
  fs : FS
  visited : List String
  stats : Stats
  exports : Nat
deriving Repr, DecidableEq

/-- Models drive_file_ids.add(file_id) (set semantics). -/
def visit (visited : List String) (fileId : String) : List String :=
  if visited.contains fileId then visited else fileId :: visited

/-! ## SyncManager operations -/

/-- The relative path an item would occupy when placed in
`currentPath` under its current name plus the extension derived from
the stored kind; the branch structure of _check_if_file_moved
(sync_manager.py:94-100) and of _move_file's new name computation
(sync_manager.py:115-121). -/
def expectedRelPath (fileType : String) (fileName : String)
    (currentPath : List String) : String :=
  if fileType = "doc" then renderPath (currentPath ++ [fileName ++ ".md"])
  else if fileType = "sheet" then renderPath (currentPath ++ [fileName ++ ".csv"])
  else renderPath (currentPath ++ [fileName])

/-- SyncManager._check_if_file_moved (sync_manager.py:89-102). -/
def checkIfFileMoved (files : Files) (fileId fileName : String)
    (currentPath : List String) : Bool :=
  match getFile files fileId with
  | none => false
  | some fileMeta => fileMeta.path != expectedRelPath fileMeta.ftype fileName currentPath

/-- SyncManager._sync_google_doc (sync_manager.py:179-184): one export
call; on success the markdown file is written.  `none` models the
export raising. -/
def syncGoogleDoc (env : Env) (fileId fileName : String)
    (targetPath : List String) (fs : FS) : Nat × Option FS :=
  if env.docExportFails fileId then (1, none)
  else (1, some (fsAdd fs (renderPath (targetPath ++ [fileName ++ ".md"]))))

/-- SyncManager._sync_google_sheet (sync_manager.py:186-206): a single
tab is exported whole; with several tabs each tab is exported
individually and a per-tab failure is caught inside the loop, so the
multi-tab branch never raises. -/
def syncGoogleSheet (env : Env) (fileId fileName : String)
    (targetPath : List String) (fs : FS) : Nat × Option FS :=
  let tabs := getSheetTabs env fileId
  if tabs.length = 1 then
    if env.sheetExportFails fileId then (1, none)
    else (1, some (fsAdd fs (renderPath (targetPath ++ [fileName ++ ".csv"]))))
  else
    (tabs.length,
      some (tabs.foldl
        (fun fs tab =>
          if env.tabExportFails fileId tab.sheetId then fs
          else fsAdd fs (renderPath (targetPath ++ [fileName ++ "-" ++ tab.title ++ ".csv"])))
        fs))

/-- SyncManager._sync_file (sync_manager.py:151-177).  An exception
from the doc/sheet export is caught here: the error counter is bumped
and neither the metadata nor the new/updated counters are touched. -/
def syncFile (env : Env) (fileId fileName mimeType modifiedTime : String)
    (currentPath : List String) (st : SyncState) : SyncState :=
  let isNew := (getFile st.files fileId).isNone
  if isGoogleDoc mimeType then
    match syncGoogleDoc env fileId fileName currentPath st.fs with
    | (n, none) =>
        { st with exports := st.exports + n, stats := st.stats.incErrors }
    | (n, some fs') =>
        let relPath := renderPath (currentPath ++ [fileName ++ ".md"])
        { st with exports := st.exports + n, fs := fs',
                  files := addFile st.files fileId relPath modifiedTime "doc" none env.now,
                  stats := if isNew then st.stats.incNew else st.stats.incUpdated }
  else if isGoogleSheet mimeType then
    match syncGoogleSheet env fileId fileName currentPath st.fs with
    | (n, none) =>
        { st with exports := st.exports + n, stats := st.stats.incErrors }
    | (n, some fs') =>
        let relPath := renderPath (currentPath ++ [fileName ++ ".csv"])
        { st with exports := st.exports + n, fs := fs',
                  files := addFile st.files fileId relPath modifiedTime "sheet" none env.now,
                  stats := if isNew then st.stats.incNew else st.stats.incUpdated }
  else st

/-- Does a file name match the glob pattern `base-*.csv`? -/
def matchesSiblingGlob (base name : String) : Bool :=
  strStartsWith name (base ++ "-") && strEndsWith name ".csv" &&
    decide ((base ++ "-").length + ".csv".length ≤ name.length)

/-- SyncManager._move_file (sync_manager.py:104-149).  When the stored
path exists the file is renamed (for sheets, co-located per-tab sibling
files matching `oldbase-*.csv` are renamed with it, scanning the disk
state left by the main rename); otherwise the move falls back to a full
re-sync. -/
def moveFile (env : Env) (fileId fileName mimeType modifiedTime : String)
    (newPath : List String) (st : SyncState) : SyncState :=
  match getFile st.files fileId with
  | none => st
  | some fileMeta =>
    let oldRelPath := fileMeta.path
    let fileType := fileMeta.ftype
    let newRelPath := expectedRelPath fileType fileName newPath
    if st.fs.contains oldRelPath then
      let fs1 := fsMove st.fs oldRelPath newRelPath
      let fs2 :=
        if fileType = "sheet" then
          let oldDir := pathParent oldRelPath
          let oldBase := (stemExt (pathName oldRelPath)).1
          let newStem := (stemExt (pathName newRelPath)).1
          let siblings := fs1.filter
            (fun p => pathParent p == oldDir && matchesSiblingGlob oldBase (pathName p))
          siblings.foldl
            (fun fs rel =>
              let sheetTail := strDrop (pathName rel) oldBase.length
              fsMove fs rel (renderPath (newPath ++ [newStem ++ sheetTail])))
            fs1
        else fs1
      { st with fs := fs2,
                files := addFile st.files fileId newRelPath modifiedTime fileType none env.now,
                stats := st.stats.incMoved }
    else
      syncFile env fileId fileName mimeType modifiedTime newPath st

/-- The classification and dispatch performed by sync_folder's loop for
one supported item (sync_manager.py:57-66): a changed item is synced
(regardless of having moved), an unchanged moved item is moved, and an
unchanged unmoved item is a counted no-op. -/
def processItem (env : Env) (fileId fileName mimeType modifiedTime : String)
    (currentPath : List String) (st : SyncState) : SyncState :=
  let needsSync := isFileChanged st.files fileId modifiedTime
  let hasMoved := checkIfFileMoved st.files fileId fileName currentPath
  if needsSync then syncFile env fileId fileName mimeType modifiedTime currentPath st
  else if hasMoved then moveFile env fileId fileName mimeType modifiedTime currentPath st
  else { st with stats := st.stats.incUnchanged }

/-- The SyncError message raised by sync_folder's except clause. -/
def folderErrorMsg (folderId msg : String) : String :=
  "Failed to sync folder " ++ folderId ++ ": " ++ msg

/-- The body of SyncManager.sync_folder's loop over one folder listing
(sync_manager.py:42-72).  Every listed id is added to the visited set;
folder children open a nested sync_folder frame whose try/except bumps
the error counter and re-raises a wrapped SyncError, which this frame's
own except propagates further, abandoning the remaining entries. -/
def syncEntries (env : Env) (entries : List Entry) (currentPath : List String)
    (st : SyncState) : SyncState × Option String :=
  match entries with
  | [] => (st, none)
  | Entry.mk fileId fileName mimeType _modifiedTime children lf :: rest =>
    let st1 : SyncState := { st with visited := visit st.visited fileId }
    if isFolder mimeType then
      let st2 : SyncState := { st1 with stats := st1.stats.incFolders }
      let inner : SyncState × Option String :=
        if lf then
          ({ st2 with stats := st2.stats.incErrors },
            some (folderErrorMsg fileId "listing failed"))
        else
          match syncEntries env children (currentPath ++ [fileName]) st2 with
          | (st3, none) => (st3, none)
          | (st3, some msg) =>
              ({ st3 with stats := st3.stats.incErrors },
                some (folderErrorMsg fileId msg))
      match inner with
      | (st3, some msg) => (st3, some msg)
      | (st3, none) => syncEntries env rest currentPath st3
    else if isSupportedFile mimeType then
      syncEntries env rest currentPath
        (processItem env fileId fileName mimeType _modifiedTime currentPath st1)
    else
      syncEntries env rest currentPath { st1 with stats := st1.stats.incUnchanged }
termination_by sizeOf entries
decreasing_by all_goals (simp_wf <;> omega)

/-- The top-level SyncManager.sync_folder call on the configured root
folder (current_path = target_dir): its try/except frame around the
root listing and loop. -/
def syncFolderTop (env : Env) (root : Entry) (st : SyncState) :
    SyncState × Option String :=
  match root with
  | .mk folderId _ _ _ children lf =>
    if lf then
      ({ st with stats := st.stats.incErrors },
        some (folderErrorMsg folderId "listing failed"))
    else
      match syncEntries env children [] st with
      | (st', none) => (st', none)
      | (st', some msg) =>
          ({ st' with stats := st'.stats.incErrors },
            some (folderErrorMsg folderId msg))

/-! ## Deletion pass -/

/-- The fixed tombstone directory under the sync root. -/
def deletedDirName : String := "deleted-remotely"

/-- One counter candidate of _get_unique_path: `stem (counter)ext`
inside the same directory. -/
def uniqueCandidate (parent stem ext : String) (counter : Nat) : String :=
  joinRel parent (stem ++ " (" ++ toString counter ++ ")" ++ ext)

/-- The `while True` search of _get_unique_path (sync_manager.py:224-228),
run with enough fuel that a free candidate is always reached before the
fuel runs out (at most `fs.length` candidates can be taken). -/
def getUniquePathAux (fs : FS) (parent stem ext : String) :
    Nat → Nat → String
  | counter, 0 => uniqueCandidate parent stem ext counter
  | counter, fuel + 1 =>
      let candidate := uniqueCandidate parent stem ext counter
      if fs.contains candidate then getUniquePathAux fs parent stem ext (counter + 1) fuel
      else candidate

/-- SyncManager._get_unique_path (sync_manager.py:219-228), on a path
given as its directory and file name (a pathlib Path carries this
structure; `stem`/`suffix` are computed from the name). -/
def getUniquePath (fs : FS) (parent name : String) : String :=
  if fs.contains (joinRel parent name) then
    getUniquePathAux fs parent (stemExt name).1 (stemExt name).2 2 (fs.length + 1)
  else joinRel parent name

/-- SyncManager._move_to_deleted (sync_manager.py:207-217): a record
whose file is locally missing is just dropped; otherwise the file is
renamed to a unique name under deleted-remotely/ and the record dropped,
counting one deletion. -/
def moveToDeleted (st : SyncState) (fileId : String) (fileMeta : FileRecord) :
    SyncState :=
  let originalPath := fileMeta.path
  if !(st.fs.contains originalPath) then
    { st with files := removeFile st.files fileId }
  else
    let targetPath := getUniquePath st.fs deletedDirName (pathName originalPath)
    { st with fs := fsMove st.fs originalPath targetPath,
              files := removeFile st.files fileId,
              stats := st.stats.incDeleted }

/-- SyncManager.handle_deletions (sync_manager.py:74-87).  The deleted
set is computed up front; each item is tombstoned independently (a
per-item failure would be caught and counted, and the modelled move is
total, so no failure branch arises here). -/
def handleDeletions (st : SyncState) (driveFileIds : List String) : SyncState :=
  let deletedFiles := getDeletedFiles st.files driveFileIds
  if deletedFiles.isEmpty then st
  else deletedFiles.foldl (fun acc p => moveToDeleted acc p.1 p.2) st

/-! ## One full pull pass (cli.py:_run_pull, lines 66-73)

A fresh SyncManager (zero statistics) and a fresh `drive_ids` set are
created per pull; sync_folder runs over the whole tree and, if it did
not raise, handle_deletions runs on the collected ids. -/

def initialState (files : Files) (fs : FS) : SyncState :=
  { files := files, fs := fs, visited := [], stats := Stats.zero, exports := 0 }

def runPull (env : Env) (root : Entry) (files : Files) (fs : FS) :
    SyncState × Option String :=
  match syncFolderTop env root (initialState files fs) with
  | (st, none) => (handleDeletions st st.visited, none)
  | (st, some msg) => (st, some msg)

/-! ## Status reporter: status.py -/

/-- One entry produced by _collect_drive_files (status.py:85-92). -/
structure StatusEntry where
  id : String
  path : String
  modifiedTime : String
  ftype : String
deriving Repr, DecidableEq

/-- The report produced by collect_status (status.py:15-21,65-71). -/
structure StatusReport where
  drive_folder_name : String
  remote_new : List StatusEntry
  remote_modified : List StatusEntry
  remote_deleted : List (String × FileRecord)
  local_untracked : List String
deriving Repr, DecidableEq

/-- Models _collect_drive_files (status.py:74-93): a read-only walk of the
remote tree; a folder whose listing fails raises out of the whole
collection. -/
def collectDriveFiles : List Entry → String → Except String (List StatusEntry)
  | [], _ => .ok []
  | Entry.mk fileId fileName mimeType modifiedTime children lf :: rest, basePath =>
    if isFolder mimeType then
      if lf then .error ("Failed to list files in folder " ++ fileId)
      else
        match collectDriveFiles children (basePath ++ fileName ++ "/") with
        | .error e => .error e
        | .ok sub =>
          match collectDriveFiles rest basePath with
          | .error e => .error e
          | .ok restEntries => .ok (sub ++ restEntries)
    else if isSupportedFile mimeType then
      match collectDriveFiles rest basePath with
      | .error e => .error e
      | .ok restEntries =>
        .ok (⟨fileId,
              basePath ++ fileName ++ (if isGoogleDoc mimeType then ".md" else ".csv"),
              modifiedTime,
              if isGoogleDoc mimeType then "doc" else "sheet"⟩ :: restEntries)
    else
      collectDriveFiles rest basePath
termination_by entries _ => sizeOf entries
decreasing_by all_goals (simp_wf <;> omega)

/-- Metadata reads used by collect_status, in explicit state-passing
form (each returns its result together with the metadata state it
leaves behind). -/
def mDriveFolderId (md : MetadataData) : Option String × MetadataData :=
  (md.drive_folder_id, md)

def mGetFile (fileId : String) (md : MetadataData) :
    Option FileRecord × MetadataData :=
  (getFile md.files fileId, md)

def mIsFileChanged (fileId modifiedTime : String) (md : MetadataData) :
    Bool × MetadataData :=
  (isFileChanged md.files fileId modifiedTime, md)

def mGetDeletedFiles (currentIds : List String) (md : MetadataData) :
    Files × MetadataData :=
  (getDeletedFiles md.files currentIds, md)

def mTrackedPaths (md : MetadataData) : List String × MetadataData :=
  (trackedPaths md.files, md)

/-- Metadata.drive_folder_display (metadata.py:120-123). -/
def mDriveFolderDisplay (md : MetadataData) : String × MetadataData :=
  ((md.drive_folder_path).getD ((md.drive_folder_name).getD "Unknown"), md)

/-- Models _iter_markdown_files (status.py:96-100) composed with the
`relative_to`/membership filter of collect_status: local `*.md` files
outside the reserved .gdrive-sync directory. -/
def iterMarkdownFiles (fs : FS) : List String :=
  fs.filter (fun p =>
    strEndsWith (pathName p) ".md" && !((splitSlash p).contains ".gdrive-sync"))

/-- collect_status (status.py:40-71), threading the metadata state
through every call the source makes on it, in source order.
`rootChildren` is the listing tree under the configured folder id. -/
def collectStatus (rootChildren : List Entry) (md0 : MetadataData) (fs : FS) :
    Except String StatusReport × MetadataData :=
  let s1 := mDriveFolderId md0
  match s1.1 with
  | none => (.error "Metadata missing drive_folder_id; re-run init.", s1.2)
  | some _ =>
    match collectDriveFiles rootChildren "" with
    | .error e => (.error e, s1.2)
    | .ok remoteFiles =>
      let currentIds := remoteFiles.map (fun f => f.id)
      let s2 := remoteFiles.foldl
        (fun (acc : List StatusEntry × MetadataData) f =>
          let g := mGetFile f.id acc.2
          (if g.1.isNone then acc.1 ++ [f] else acc.1, g.2))
        ([], s1.2)
      let s3 := remoteFiles.foldl
        (fun (acc : List StatusEntry × MetadataData) f =>
          let g := mGetFile f.id acc.2
          let ch := mIsFileChanged f.id f.modifiedTime g.2
          (if g.1.isSome && ch.1 then acc.1 ++ [f] else acc.1, ch.2))
        ([], s2.2)
      let s4 := mGetDeletedFiles currentIds s3.2
      let s5 := mTrackedPaths s4.2
      let localUntracked := (iterMarkdownFiles fs).filter
        (fun p => !(s5.1.contains p))
      let s6 := mDriveFolderDisplay s5.2
      (.ok { drive_folder_name := s6.1,
             remote_new := s2.1,
             remote_modified := s3.1,
             remote_deleted := s4.1,
             local_untracked := localUntracked }, s6.2)

/-! ## Metadata.save: metadata.py:66-73

save stamps `last_sync`, ensures the .gdrive-sync directory exists, and
then opens the metadata file with mode "w" — which truncates it on the
spot — and streams `json.dump` into it.  The observable contents of the
metadata file at the successive stages of a save are modelled
explicitly, so atomicity (every intermediate state shows either the old
or the complete new document) is a statable property. -/

def jsonStr (s : String) : String := "\x22" ++ s ++ "\x22"

def jsonOptStr : Option String → String
  | none => "null"
  | some s => jsonStr s

def jsonOptNat : Option Nat → String
  | none => "null"
  | some n => toString n

/-- A rendering of one tracked record as json.dump would produce. -/
def serializeRecord (fileId : String) (r : FileRecord) : String :=
  jsonStr fileId ++ ": \x7b\"path\": " ++ jsonStr r.path ++
    ", \"modified_time\": " ++ jsonStr r.modified_time ++
    ", \"type\": " ++ jsonStr r.ftype ++
    ", \"size\": " ++ jsonOptNat r.size ++
    ", \"last_synced\": " ++ jsonStr r.last_synced ++ "\x7d"

/-- A rendering of the whole metadata document as json.dump would
produce (whitespace aside). -/
def serializeMetadata (md : MetadataData) : String :=
  "\x7b\"version\": " ++ jsonStr md.version ++
    ", \"drive_folder_id\": " ++ jsonOptStr md.drive_folder_id ++
    ", \"drive_folder_name\": " ++ jsonOptStr md.drive_folder_name ++
    ", \"drive_folder_path\": " ++ jsonOptStr md.drive_folder_path ++
    ", \"last_sync\": " ++ jsonOptStr md.last_sync ++
    ", \"files\": \x7b" ++
    String.intercalate ", " (md.files.map (fun p => serializeRecord p.1 p.2)) ++
    "\x7d\x7d"

/-- The in-memory effect of save: `self.data["last_sync"] = now`. -/
def saveResult (now : String) (md : MetadataData) : MetadataData :=
  { md with last_sync := some now }

/-- The successive observable contents of the metadata file during
save: before the call; right after `open(file, "w")` truncates it; and
after `json.dump` has completed.  `none` means the file does not exist
yet. -/
def saveFileStates (oldContent : Option String) (now : String)
    (md : MetadataData) : List (Option String) :=
  [oldContent, some "", some (serializeMetadata (saveResult now md))]

/-- A save is atomic when an interruption at any stage leaves either
the old file contents or the complete new document in place. -/
def saveIsAtomic (oldContent : Option String) (now : String)
    (md : MetadataData) : Prop :=
  ∀ c ∈ saveFileStates oldContent now md,
    c = oldContent ∨ c = some (serializeMetadata (saveResult now md))

/-- Metadata.save's result: the stamped document, or the MetadataError
raised when the write fails (metadata.py:72-73). -/
def saveCall (writeFails : Bool) (now : String) (md : MetadataData) :
    Except String MetadataData :=
  if writeFails then .error "Failed to save metadata"
  else .ok (saveResult now md)

/-! ## Derived predicates on the remote tree and on states

These are the vocabulary of the theorems: which ids a walk visits,
which trees are free of listing/export failures, and when a state is a
fixed point of the per-item classification. -/

/-- The ids the walk of sync_folder adds to `drive_file_ids` from a
listing: every listed id, and recursively the ids listed inside folder
children (items' junk `children` fields are never listed). -/
def treeIds : List Entry → List String
  | [] => []
  | Entry.mk fileId _ mimeType _ children _ :: rest =>
      fileId :: ((if isFolder mimeType then treeIds children else []) ++ treeIds rest)
termination_by entries => sizeOf entries
decreasing_by all_goals (simp_wf <;> omega)

/-- No folder reachable by the walk has a failing listing. -/
def cleanTree : List Entry → Bool
  | [] => true
  | Entry.mk _ _ mimeType _ children lf :: rest =>
      (if isFolder mimeType then !lf && cleanTree children else true) && cleanTree rest
termination_by entries => sizeOf entries
decreasing_by all_goals (simp_wf <;> omega)

/-- Some folder reachable by the walk has a failing listing. -/
def treeHasListFailure : List Entry → Bool
  | [] => false
  | Entry.mk _ _ mimeType _ children lf :: rest =>
      (isFolder mimeType && (lf || treeHasListFailure children)) || treeHasListFailure rest
termination_by entries => sizeOf entries
decreasing_by all_goals (simp_wf <;> omega)

/-- The root folder of a pull has a working listing and a clean tree
below it. -/
def cleanRoot (root : Entry) : Bool :=
  !root.listFails && cleanTree root.children

/-- An environment in which no doc or whole-sheet export fails (per-tab
export failures are caught inside _sync_google_sheet and may still
occur). -/
def cleanEnv (env : Env) : Prop :=
  (∀ fileId, env.docExportFails fileId = false) ∧
  (∀ fileId, env.sheetExportFails fileId = false)

/-- The keys of the files mapping are pairwise distinct (true of every
mapping that was ever a Python dict). -/
def keysNodup (files : Files) : Prop :=
  (files.map Prod.fst).Nodup

/-- A supported item is stable w.r.t. a files mapping: a record exists
whose marker equals the item's marker and whose path is exactly where
the item would be placed in `currentPath` — i.e. the item classifies as
neither changed nor moved. -/
def stableItem (files : Files) (fileId fileName modifiedTime : String)
    (currentPath : List String) : Prop :=
  ∃ r, getFile files fileId = some r ∧ r.modified_time = modifiedTime ∧
    r.path = expectedRelPath r.ftype fileName currentPath

/-- Every supported item of the tree, at the local directory the walk
would visit it in, is stable w.r.t. the files mapping. -/
def stableTree (files : Files) : List Entry → List String → Prop
  | [], _ => True
  | Entry.mk fileId fileName mimeType modifiedTime children _ :: rest, currentPath =>
      (if isFolder mimeType then
        stableTree files children (currentPath ++ [fileName])
      else if isSupportedFile mimeType then
        stableItem files fileId fileName modifiedTime currentPath
      else True)
      ∧ stableTree files rest currentPath
termination_by entries _ => sizeOf entries
decreasing_by all_goals (simp_wf <;> omega)

/-- Two sync states that agree on everything a repeated pass must not
change: metadata, file system, export count, and the new / updated /
moved / deleted statistics. -/
def SameCore (st st' : SyncState) : Prop :=
  st'.files = st.files ∧ st'.fs = st.fs ∧ st'.exports = st.exports ∧
  st'.stats.new = st.stats.new ∧ st'.stats.updated = st.stats.updated ∧
  st'.stats.moved = st.stats.moved ∧ st'.stats.deleted = st.stats.deleted

/-! ## Concrete sample data for witnesses -/

/-- A benign environment: every spreadsheet has the single default tab
and no export ever fails. -/
def sampleEnv : Env :=
  { sheetTabs := fun _ => [⟨"Sheet1", 0⟩],
    docExportFails := fun _ => false,
    sheetExportFails := fun _ => false,
    tabExportFails := fun _ _ => false,
    now := "2024-01-01T00:00:00" }

/-- An environment whose spreadsheets all have two tabs Q1 and Q2. -/
def sampleTwoTabEnv : Env :=
  { sampleEnv with sheetTabs := fun _ => [⟨"Q1", 0⟩, ⟨"Q2", 1⟩] }

/-- An environment in which every document export raises. -/
def failDocEnv : Env :=
  { sampleEnv with docExportFails := fun _ => true }

/-- A small remote tree: a doc at the root and a subfolder holding a
spreadsheet, with working listings everywhere. -/
def sampleRoot : Entry :=
  .mk "root" "Root" MIME_folder "t0"
    [.mk "f1" "Notes" MIME_document "t1" [] false,
     .mk "d1" "Sub" MIME_folder "t2"
       [.mk "f2" "Budget" MIME_spreadsheet "t3" [] false] false]
    false

/-! # Theorems

First the library of small facts about the embedded dictionary and
state operations, then one theorem per claim (with witnesses and
counterexamples where required). -/

theorem getFile_dictInsert_self (files : Files) (fileId : String) (r : FileRecord) :
    getFile (dictInsert files fileId r) fileId = some r := by
  induction files with
  | nil => simp [dictInsert, getFile]
  | cons p rest ih =>
    by_cases h : p.1 = fileId
    · simp [dictInsert, getFile, h]
    · simp [dictInsert, getFile, h, ih]

theorem getFile_dictInsert_ne (files : Files) (fileId other : String)
    (r : FileRecord) (h : other ≠ fileId) :
    getFile (dictInsert files fileId r) other = getFile files other := by
  induction files with
  | nil => simp [dictInsert, getFile, Ne.symm h]
  | cons p rest ih =>
    obtain ⟨k, v⟩ := p
    by_cases hk : k = fileId
    · subst hk
      simp [dictInsert, getFile, Ne.symm h]
    · by_cases ho : k = other
      · simp [dictInsert, getFile, hk, ho, h]
      · simp [dictInsert, getFile, hk, ho, ih]

theorem getFile_removeFile_ne (files : Files) (fileId other : String)
    (h : other ≠ fileId) :
    getFile (removeFile files fileId) other = getFile files other := by
  induction files with
  | nil => simp [removeFile]
  | cons p rest ih =>
    obtain ⟨k, v⟩ := p
    by_cases hk : k = fileId
    · subst hk
      simp [removeFile, getFile, Ne.symm h]
    · by_cases ho : k = other
      · simp [removeFile, getFile, hk, ho, h]
      · simp [removeFile, getFile, hk, ho, ih]

theorem getFile_eq_none_iff (files : Files) (fileId : String) :
    getFile files fileId = none ↔ fileId ∉ files.map Prod.fst := by
  induction files with
  | nil => simp [getFile]
  | cons p rest ih =>
    obtain ⟨k, v⟩ := p
    by_cases hk : k = fileId
    · simp [getFile, hk]
    · simp [getFile, hk, ih, Ne.symm hk]

theorem getFile_removeFile_self (files : Files) (fileId : String)
    (h : keysNodup files) :
    getFile (removeFile files fileId) fileId = none := by
  induction files with
  | nil => simp [removeFile, getFile]
  | cons p rest ih =>
    obtain ⟨k, v⟩ := p
    rw [keysNodup, List.map_cons, List.nodup_cons] at h
    obtain ⟨hnotin, hrest⟩ := h
    by_cases hk : k = fileId
    · subst hk
      rw [removeFile]
      simp only [if_pos rfl]
      rw [getFile_eq_none_iff]
      simpa using hnotin
    · rw [removeFile]
      simp only [if_neg hk]
      rw [getFile]
      simp only [if_neg hk]
      exact ih hrest

theorem keys_dictInsert (files : Files) (fileId : String) (r : FileRecord) :
    (dictInsert files fileId r).map Prod.fst =
      if fileId ∈ files.map Prod.fst then files.map Prod.fst
      else files.map Prod.fst ++ [fileId] := by
  induction files with
  | nil => simp [dictInsert]
  | cons p rest ih =>
    obtain ⟨k, v⟩ := p
    by_cases hk : k = fileId
    · simp [dictInsert, hk]
    · simp only [dictInsert, if_neg hk, List.map_cons, ih]
      by_cases hmem : fileId ∈ rest.map Prod.fst
      · simp [hmem, Ne.symm hk]
      · simp [hmem, Ne.symm hk]

theorem keysNodup_dictInsert (files : Files) (fileId : String) (r : FileRecord)
    (h : keysNodup files) : keysNodup (dictInsert files fileId r) := by
  unfold keysNodup at h ⊢
  rw [keys_dictInsert]
  by_cases hmem : fileId ∈ files.map Prod.fst
  · rw [if_pos hmem]
    exact h
  · rw [if_neg hmem, List.nodup_append]
    exact ⟨h, List.nodup_singleton _, by simpa using hmem⟩

theorem keys_removeFile_sublist (files : Files) (fileId : String) :
    ((removeFile files fileId).map Prod.fst).Sublist (files.map Prod.fst) := by
  induction files with
  | nil => simp [removeFile]
  | cons p rest ih =>
    by_cases hk : p.1 = fileId
    · simp only [removeFile, if_pos hk, List.map_cons]
      exact (List.sublist_cons_self _ _)
    · simp only [removeFile, if_neg hk, List.map_cons]
      exact ih.cons₂ _

theorem keysNodup_removeFile (files : Files) (fileId : String)
    (h : keysNodup files) : keysNodup (removeFile files fileId) :=
  (keys_removeFile_sublist files fileId).nodup h

theorem syncFile_stats_moved (env : Env)
    (fileId fileName mimeType modifiedTime : String)
    (currentPath : List String) (st : SyncState) :
    (syncFile env fileId fileName mimeType modifiedTime currentPath st).stats.moved =
      st.stats.moved := by
  simp only [syncFile]
  split
  · split
    · simp [Stats.incErrors]
    · split <;> simp [Stats.incNew, Stats.incUpdated]
  · split
    · split
      · simp [Stats.incErrors]
      · split <;> simp [Stats.incNew, Stats.incUpdated]
    · rfl

theorem moveFile_exports_of_path_exists (env : Env)
    (fileId fileName mimeType modifiedTime : String)
    (newPath : List String) (st : SyncState) (fileMeta : FileRecord)
    (hmeta : getFile st.files fileId = some fileMeta)
    (hex : st.fs.contains fileMeta.path = true) :
    (moveFile env fileId fileName mimeType modifiedTime newPath st).exports =
      st.exports := by
  simp only [moveFile, hmeta, hex]
  simp

/-- C2: for a supported item, a changed item is handled by the Sync
Action alone (no Move Action runs and the moved counter is untouched),
even when it also classifies as moved; an unchanged moved item is
handled by the Move Action, which performs no content fetch when the
recorded file exists on disk; an unchanged unmoved item performs no
I/O at all and only bumps the unchanged counter. -/
theorem c2_dispatch_priority (env : Env)
    (fileId fileName mimeType modifiedTime : String)
    (currentPath : List String) (st : SyncState)
    (_hsupp : isSupportedFile mimeType = true) :
    (isFileChanged st.files fileId modifiedTime = true →
      (processItem env fileId fileName mimeType modifiedTime currentPath st =
        syncFile env fileId fileName mimeType modifiedTime currentPath st) ∧
      (processItem env fileId fileName mimeType modifiedTime currentPath st).stats.moved =
        st.stats.moved) ∧
    (isFileChanged st.files fileId modifiedTime = false →
      checkIfFileMoved st.files fileId fileName currentPath = true →
      (processItem env fileId fileName mimeType modifiedTime currentPath st =
        moveFile env fileId fileName mimeType modifiedTime currentPath st) ∧
      (∀ fileMeta, getFile st.files fileId = some fileMeta →
        st.fs.contains fileMeta.path = true →
        (processItem env fileId fileName mimeType modifiedTime currentPath st).exports =
          st.exports)) ∧
    (isFileChanged st.files fileId modifiedTime = false →
      checkIfFileMoved st.files fileId fileName currentPath = false →
      processItem env fileId fileName mimeType modifiedTime currentPath st =
        { st with stats := st.stats.incUnchanged }) := by
  refine ⟨?_, ?_, ?_⟩
  · intro hchanged
    constructor
    · simp [processItem, hchanged]
    · simp only [processItem, hchanged, if_true]
      exact syncFile_stats_moved env fileId fileName mimeType modifiedTime currentPath st
  · intro hunchanged hmoved
    constructor
    · simp [processItem, hunchanged, hmoved]
    · intro fileMeta hmeta hex
      simp only [processItem, hunchanged, hmoved, Bool.false_eq_true, if_false, if_true]
      exact moveFile_exports_of_path_exists env fileId fileName mimeType modifiedTime
        currentPath st fileMeta hmeta hex
  · intro hunchanged hmoved
    simp [processItem, hunchanged, hmoved]

theorem c2_dispatch_priority_witness :
    processItem sampleEnv "f1" "Notes" MIME_document "t2" [] (initialState [] []) =
      syncFile sampleEnv "f1" "Notes" MIME_document "t2" [] (initialState [] []) :=
  ((c2_dispatch_priority sampleEnv "f1" "Notes" MIME_document "t2" []
      (initialState [] []) (by rfl)).1 (by rfl)).1

theorem contains_iff_mem (l : List String) (a : String) :
    l.contains a = true ↔ a ∈ l := List.elem_iff

theorem contains_false_iff (l : List String) (a : String) :
    l.contains a = false ↔ a ∉ l := by
  rw [← contains_iff_mem l a]
  cases l.contains a <;> simp

theorem getFile_mem (files : Files) (fileId : String) (r : FileRecord)
    (h : getFile files fileId = some r) : (fileId, r) ∈ files := by
  induction files with
  | nil => simp [getFile] at h
  | cons p rest ih =>
    obtain ⟨k, v⟩ := p
    by_cases hk : k = fileId
    · subst hk
      rw [getFile, if_pos rfl] at h
      cases h
      exact List.mem_cons_self _ _
    · rw [getFile, if_neg hk] at h
      exact List.mem_cons_of_mem _ (ih h)

theorem getFile_removeFile_none (files : Files) (fileId other : String)
    (h : getFile files fileId = none) :
    getFile (removeFile files other) fileId = none := by
  rw [getFile_eq_none_iff] at h ⊢
  intro hmem
  exact h ((keys_removeFile_sublist files other).subset hmem)

theorem moveToDeleted_files (st : SyncState) (fileId : String) (m : FileRecord) :
    (moveToDeleted st fileId m).files = removeFile st.files fileId := by
  simp only [moveToDeleted]
  split <;> rfl

theorem moveToDeleted_frame (st : SyncState) (fileId : String) (m : FileRecord) :
    (moveToDeleted st fileId m).visited = st.visited ∧
    (moveToDeleted st fileId m).exports = st.exports ∧
    (moveToDeleted st fileId m).stats.new = st.stats.new ∧
    (moveToDeleted st fileId m).stats.updated = st.stats.updated ∧
    (moveToDeleted st fileId m).stats.moved = st.stats.moved := by
  simp only [moveToDeleted]
  split <;> simp [Stats.incDeleted]

theorem foldDel_files (deletedFiles : Files) (st : SyncState) :
    (deletedFiles.foldl (fun acc p => moveToDeleted acc p.1 p.2) st).files =
      deletedFiles.foldl (fun F p => removeFile F p.1) st.files := by
  induction deletedFiles generalizing st with
  | nil => rfl
  | cons p rest ih =>
    simp only [List.foldl_cons, ih, moveToDeleted_files]

theorem foldDel_frame (deletedFiles : Files) (st : SyncState) :
    (deletedFiles.foldl (fun acc p => moveToDeleted acc p.1 p.2) st).visited =
      st.visited ∧
    (deletedFiles.foldl (fun acc p => moveToDeleted acc p.1 p.2) st).exports =
      st.exports ∧
    (deletedFiles.foldl (fun acc p => moveToDeleted acc p.1 p.2) st).stats.new =
      st.stats.new ∧
    (deletedFiles.foldl (fun acc p => moveToDeleted acc p.1 p.2) st).stats.updated =
      st.stats.updated ∧
    (deletedFiles.foldl (fun acc p => moveToDeleted acc p.1 p.2) st).stats.moved =
      st.stats.moved := by
  induction deletedFiles generalizing st with
  | nil => exact ⟨rfl, rfl, rfl, rfl, rfl⟩
  | cons p rest ih =>
    simp only [List.foldl_cons]
    obtain ⟨h1, h2, h3, h4, h5⟩ := ih (moveToDeleted st p.1 p.2)
    obtain ⟨g1, g2, g3, g4, g5⟩ := moveToDeleted_frame st p.1 p.2
    exact ⟨h1.trans g1, h2.trans g2, h3.trans g3, h4.trans g4, h5.trans g5⟩

theorem foldRemove_none_preserved (keysList : Files) (files : Files) (fileId : String)
    (h : getFile files fileId = none) :
    getFile (keysList.foldl (fun F p => removeFile F p.1) files) fileId = none := by
  induction keysList generalizing files with
  | nil => exact h
  | cons p rest ih =>
    simp only [List.foldl_cons]
    exact ih _ (getFile_removeFile_none _ _ _ h)

theorem keysNodup_foldRemove (keysList : Files) (files : Files)
    (h : keysNodup files) :
    keysNodup (keysList.foldl (fun F p => removeFile F p.1) files) := by
  induction keysList generalizing files with
  | nil => exact h
  | cons p rest ih =>
    simp only [List.foldl_cons]
    exact ih _ (keysNodup_removeFile _ _ h)

theorem foldRemove_removes (keysList : Files) (files : Files) (fileId : String)
    (hnodup : keysNodup files) (hmem : fileId ∈ keysList.map Prod.fst) :
    getFile (keysList.foldl (fun F p => removeFile F p.1) files) fileId = none := by
  induction keysList generalizing files with
  | nil => simp at hmem
  | cons p rest ih =>
    simp only [List.foldl_cons]
    by_cases hk : p.1 = fileId
    · subst hk
      exact foldRemove_none_preserved _ _ _ (getFile_removeFile_self _ _ hnodup)
    · rcases List.mem_cons.mp hmem with heq | hmem'
      · exact absurd heq.symm hk
      · exact ih _ (keysNodup_removeFile _ _ hnodup) hmem'

theorem foldRemove_frame (keysList : Files) (files : Files) (fileId : String)
    (h : ∀ j ∈ keysList.map Prod.fst, j ≠ fileId) :
    getFile (keysList.foldl (fun F p => removeFile F p.1) files) fileId =
      getFile files fileId := by
  induction keysList generalizing files with
  | nil => rfl
  | cons p rest ih =>
    simp only [List.foldl_cons]
    rw [ih _ (fun j hj => h j (by simp [hj]))]
    exact getFile_removeFile_ne _ _ _ (Ne.symm (h p.1 (by simp)))

theorem hd_getFile_none (st : SyncState) (visitedIds : List String)
    (fileId : String) (fileMeta : FileRecord)
    (hnodup : keysNodup st.files)
    (htracked : getFile st.files fileId = some fileMeta)
    (hnot : visitedIds.contains fileId = false) :
    getFile (handleDeletions st visitedIds).files fileId = none := by
  have hpair : (fileId, fileMeta) ∈ getDeletedFiles st.files visitedIds := by
    unfold getDeletedFiles
    rw [List.mem_filter]
    exact ⟨getFile_mem _ _ _ htracked, by rw [hnot]; rfl⟩
  have hne : ¬ (getDeletedFiles st.files visitedIds).isEmpty = true := by
    intro hempty
    rw [List.isEmpty_iff] at hempty
    rw [hempty] at hpair
    simp at hpair
  simp only [handleDeletions]
  rw [if_neg hne, foldDel_files]
  exact foldRemove_removes _ _ _ hnodup
    (List.mem_map.mpr ⟨(fileId, fileMeta), hpair, rfl⟩)

theorem hd_getFile_frame (st : SyncState) (visitedIds : List String)
    (fileId : String) (hvis : visitedIds.contains fileId = true) :
    getFile (handleDeletions st visitedIds).files fileId =
      getFile st.files fileId := by
  simp only [handleDeletions]
  split
  · rfl
  · rw [foldDel_files]
    refine foldRemove_frame _ _ _ ?_
    intro j hj
    rcases List.mem_map.mp hj with ⟨p, hp, hpj⟩
    unfold getDeletedFiles at hp
    rw [List.mem_filter] at hp
    intro hcontra
    subst hcontra
    rw [hpj] at hp
    rw [hvis] at hp
    exact Bool.false_ne_true hp.2

theorem hd_keysNodup (st : SyncState) (visitedIds : List String)
    (h : keysNodup st.files) :
    keysNodup (handleDeletions st visitedIds).files := by
  simp only [handleDeletions]
  split
  · exact h
  · rw [foldDel_files]
    exact keysNodup_foldRemove _ _ h

theorem hd_frame (st : SyncState) (visitedIds : List String) :
    (handleDeletions st visitedIds).visited = st.visited ∧
    (handleDeletions st visitedIds).exports = st.exports ∧
    (handleDeletions st visitedIds).stats.new = st.stats.new ∧
    (handleDeletions st visitedIds).stats.updated = st.stats.updated ∧
    (handleDeletions st visitedIds).stats.moved = st.stats.moved := by
  simp only [handleDeletions]
  split
  · exact ⟨rfl, rfl, rfl, rfl, rfl⟩
  · exact foldDel_frame _ _

theorem hd_of_all_visited (st : SyncState) (visitedIds : List String)
    (h : ∀ p ∈ st.files, visitedIds.contains p.1 = true) :
    handleDeletions st visitedIds = st := by
  simp only [handleDeletions]
  have hnil : getDeletedFiles st.files visitedIds = [] := by
    unfold getDeletedFiles
    rw [List.filter_eq_nil_iff]
    intro p hp
    rw [h p hp]
    simp
  rw [hnil]
  rfl

theorem moveToDeleted_absent (s : SyncState) (i : String) (m : FileRecord)
    (h : s.fs.contains m.path = false) :
    moveToDeleted s i m = { s with files := removeFile s.files i } := by
  simp only [moveToDeleted]
  rw [if_pos (by rw [h]; rfl)]

theorem getUniquePathAux_shape (fs : FS) (parent stem ext : String) :
    ∀ (fuel counter : Nat), ∃ nm,
      getUniquePathAux fs parent stem ext counter fuel = joinRel parent nm := by
  intro fuel
  induction fuel with
  | zero => intro counter; exact ⟨_, rfl⟩
  | succ fuel ih =>
    intro counter
    rw [getUniquePathAux]
    split
    · exact ih (counter + 1)
    · exact ⟨_, rfl⟩

theorem getUniquePath_shape (fs : FS) (parent name : String) :
    ∃ nm, getUniquePath fs parent name = joinRel parent nm := by
  unfold getUniquePath
  split
  · exact getUniquePathAux_shape fs parent _ _ _ _
  · exact ⟨_, rfl⟩

theorem joinRel_deleted (nm : String) :
    joinRel deletedDirName nm = "deleted-remotely/" ++ nm := by
  rw [joinRel, if_neg (by decide)]
  rfl

theorem moveToDeleted_present (s : SyncState) (i : String) (m : FileRecord)
    (h : s.fs.contains m.path = true) :
    ∃ nm, moveToDeleted s i m =
      { s with fs := fsMove s.fs m.path ("deleted-remotely/" ++ nm),
               files := removeFile s.files i,
               stats := s.stats.incDeleted } := by
  obtain ⟨nm, hnm⟩ := getUniquePath_shape s.fs deletedDirName (pathName m.path)
  refine ⟨nm, ?_⟩
  simp only [moveToDeleted]
  rw [if_neg (by rw [h]; simp)]
  rw [hnm, joinRel_deleted]

/-- C3: after a deletion pass, a tracked id absent from the visited set
is no longer tracked; its tombstoning step moved nothing when the
recorded file was locally missing (pure record drop), and otherwise
renamed the recorded file to a fresh name inside deleted-remotely/ and
dropped the record, counting one deletion. -/
theorem c3_deletion_correctness (st : SyncState) (visitedIds : List String)
    (fileId : String) (fileMeta : FileRecord)
    (hnodup : keysNodup st.files)
    (htracked : getFile st.files fileId = some fileMeta)
    (hnot : visitedIds.contains fileId = false) :
    getFile (handleDeletions st visitedIds).files fileId = none ∧
    (∀ (s : SyncState) (i : String) (m : FileRecord),
      s.fs.contains m.path = false →
      moveToDeleted s i m = { s with files := removeFile s.files i }) ∧
    (∀ (s : SyncState) (i : String) (m : FileRecord),
      s.fs.contains m.path = true →
      ∃ nm, moveToDeleted s i m =
        { s with fs := fsMove s.fs m.path ("deleted-remotely/" ++ nm),
                 files := removeFile s.files i,
                 stats := s.stats.incDeleted }) :=
  ⟨hd_getFile_none st visitedIds fileId fileMeta hnodup htracked hnot,
   moveToDeleted_absent, moveToDeleted_present⟩

theorem c3_deletion_correctness_witness :
    getFile (handleDeletions
      (initialState [("f1", ⟨"Notes.md", "t1", "doc", none, "s"⟩)] ["Notes.md"])
      []).files "f1" = none :=
  (c3_deletion_correctness
    (initialState [("f1", ⟨"Notes.md", "t1", "doc", none, "s"⟩)] ["Notes.md"])
    [] "f1" ⟨"Notes.md", "t1", "doc", none, "s"⟩
    (by unfold keysNodup; decide) (by rfl) (by rfl)).1

theorem getUniquePath_free (fs : FS) (parent name : String)
    (h : fs.contains (joinRel parent name) = false) :
    getUniquePath fs parent name = joinRel parent name := by
  unfold getUniquePath
  rw [if_neg (by rw [h]; simp)]

theorem getUniquePath_second (fs : FS) (parent name : String)
    (h1 : fs.contains (joinRel parent name) = true)
    (h2 : fs.contains (uniqueCandidate parent (stemExt name).1 (stemExt name).2 2) = false) :
    getUniquePath fs parent name =
      uniqueCandidate parent (stemExt name).1 (stemExt name).2 2 := by
  unfold getUniquePath
  rw [if_pos h1]
  have hlen : 0 < fs.length := by
    have hmem : joinRel parent name ∈ fs := (contains_iff_mem _ _).mp h1
    exact List.length_pos_of_mem hmem
  obtain ⟨k, hk⟩ : ∃ k, fs.length = k + 1 :=
    ⟨fs.length - 1, by omega⟩
  rw [hk]
  rw [getUniquePathAux]
  simp only [h2]
  rfl

theorem stemExt_length (name : String) :
    (stemExt name).1.length + (stemExt name).2.length = name.length := by
  simp only [stemExt]
  split
  · simp
  · split
    · rename_i hcond
      show (name.toList.take _).length + (name.toList.drop _).length = name.length
      rw [List.length_take, List.length_drop]
      have hL : name.length = name.toList.length := rfl
      omega
    · simp

theorem joinRel_ne_candidate (parent name stem ext : String) (c : Nat)
    (hlen : stem.length + ext.length = name.length)
    (hc : 0 < (toString c).length) :
    joinRel parent name ≠ uniqueCandidate parent stem ext c := by
  intro he
  have hl := congrArg String.length he
  unfold uniqueCandidate joinRel at hl
  have hopen : (" (" : String).length = 2 := rfl
  have hclose : (")" : String).length = 1 := rfl
  by_cases hp : parent = ""
  · rw [if_pos hp, if_pos hp] at hl
    simp only [String.length_append] at hl
    omega
  · rw [if_neg hp, if_neg hp] at hl
    simp only [String.length_append] at hl
    omega

theorem getUniquePath_third (fs : FS) (parent name : String)
    (h1 : fs.contains (joinRel parent name) = true)
    (h2 : fs.contains (uniqueCandidate parent (stemExt name).1 (stemExt name).2 2) = true)
    (h3 : fs.contains (uniqueCandidate parent (stemExt name).1 (stemExt name).2 3) = false) :
    getUniquePath fs parent name =
      uniqueCandidate parent (stemExt name).1 (stemExt name).2 3 := by
  unfold getUniquePath
  rw [if_pos h1]
  have hlen : 0 < fs.length := by
    have hmem : joinRel parent name ∈ fs := (contains_iff_mem _ _).mp h1
    exact List.length_pos_of_mem hmem
  obtain ⟨k, hk⟩ : ∃ k, fs.length = k + 2 := by
    rcases fs with _ | ⟨x, rest⟩
    · simp at hlen
    · rcases rest with _ | ⟨y, rest'⟩
      · exfalso
        have hm1 : joinRel parent name ∈ [x] := (contains_iff_mem _ _).mp h1
        have hm2 : uniqueCandidate parent (stemExt name).1 (stemExt name).2 2 ∈ [x] :=
          (contains_iff_mem _ _).mp h2
        rw [List.mem_singleton] at hm1 hm2
        exact joinRel_ne_candidate parent name _ _ 2 (stemExt_length name) (by decide)
          (hm1.trans hm2.symm)
      · exact ⟨rest'.length, by simp⟩
  rw [hk]
  rw [getUniquePathAux]
  simp only [h2]
  rw [getUniquePathAux]
  simp only [h3]
  rfl

/-- C8: the tombstone collision resolver keeps the plain destination
name when it is free, otherwise takes the first free numbered candidate
(`name (2).ext`, then `name (3).ext`, ...); tombstoning two deleted
items that resolve to the same destination file name therefore yields
the two distinct files `name.ext` and `name (2).ext` under
deleted-remotely/. -/
theorem c8_collision_safe_tombstoning (fs : FS) (parent name : String)
    (h1 : fs.contains (joinRel parent name) = true)
    (h2 : fs.contains (uniqueCandidate parent (stemExt name).1 (stemExt name).2 2) = false) :
    getUniquePath fs parent name =
      uniqueCandidate parent (stemExt name).1 (stemExt name).2 2 ∧
    (∀ (fs' : FS) (parent' name' : String),
      fs'.contains (joinRel parent' name') = false →
      getUniquePath fs' parent' name' = joinRel parent' name') ∧
    (∀ (fs' : FS) (parent' name' : String),
      fs'.contains (joinRel parent' name') = true →
      fs'.contains (uniqueCandidate parent' (stemExt name').1 (stemExt name').2 2) = true →
      fs'.contains (uniqueCandidate parent' (stemExt name').1 (stemExt name').2 3) = false →
      getUniquePath fs' parent' name' =
        uniqueCandidate parent' (stemExt name').1 (stemExt name').2 3) ∧
    (handleDeletions
        (initialState
          [("f1", ⟨"a/name.ext", "t1", "doc", none, "s"⟩),
           ("f2", ⟨"b/name.ext", "t1", "doc", none, "s"⟩)]
          ["a/name.ext", "b/name.ext"])
        []).fs =
      ["deleted-remotely/name (2).ext", "deleted-remotely/name.ext"] ∧
    (handleDeletions
        (initialState
          [("f1", ⟨"a/name.ext", "t1", "doc", none, "s"⟩),
           ("f2", ⟨"b/name.ext", "t1", "doc", none, "s"⟩)]
          ["a/name.ext", "b/name.ext"])
        []).files = [] :=
  ⟨getUniquePath_second fs parent name h1 h2,
   getUniquePath_free, getUniquePath_third,
   by decide, by decide⟩

theorem c8_collision_safe_tombstoning_witness :
    getUniquePath ["deleted-remotely/name.ext"] deletedDirName "name.ext" =
      uniqueCandidate deletedDirName "name" ".ext" 2 :=
  (c8_collision_safe_tombstoning ["deleted-remotely/name.ext"]
    deletedDirName "name.ext" (by decide) (by decide)).1

theorem renderPath_snoc_length (p : List String) (a : String) :
    (renderPath (p ++ [a])).length =
      (renderPath p).length + (if p = [] then 0 else 1) + a.length := by
  have hslash : ("/" : String).length = 1 := rfl
  induction p with
  | nil => simp [renderPath]
  | cons x rest ih =>
    cases rest with
    | nil =>
      show (x ++ "/" ++ a).length = _
      simp only [renderPath, String.length_append]
      simp
      omega
    | cons y rest' =>
      show (x ++ "/" ++ renderPath ((y :: rest') ++ [a])).length = _
      simp only [String.length_append]
      rw [ih]
      show _ = (x ++ "/" ++ renderPath (y :: rest')).length + _ + _
      simp only [String.length_append]
      simp
      omega

theorem renderPath_snoc_ne (p : List String) (a b : String)
    (h : a.length ≠ b.length) :
    renderPath (p ++ [a]) ≠ renderPath (p ++ [b]) := by
  intro he
  have hl := congrArg String.length he
  rw [renderPath_snoc_length, renderPath_snoc_length] at hl
  omega

theorem contains_fsAdd_ne (fs : FS) (p q : String) (h : q ≠ p) :
    (fsAdd fs p).contains q = fs.contains q := by
  unfold fsAdd
  split
  · rfl
  · show (p :: fs).contains q = fs.contains q
    simp only [List.contains_cons]
    have : (q == p) = false := by
      rw [beq_eq_false_iff_ne]
      exact h
    rw [this]
    simp

theorem tabName_length_ne (fileName title : String) :
    (fileName ++ "-" ++ title ++ ".csv").length ≠ (fileName ++ ".csv").length := by
  simp only [String.length_append]
  have h1 : ("-" : String).length = 1 := rfl
  have h2 : (".csv" : String).length = 4 := rfl
  omega

theorem multiTab_fold_no_base_csv (env : Env) (fileId fileName : String)
    (currentPath : List String) (tabs : List SheetTab) (fs : FS)
    (h : fs.contains (renderPath (currentPath ++ [fileName ++ ".csv"])) = false) :
    (tabs.foldl
      (fun fs tab =>
        if env.tabExportFails fileId tab.sheetId then fs
        else fsAdd fs (renderPath (currentPath ++ [fileName ++ "-" ++ tab.title ++ ".csv"])))
      fs).contains (renderPath (currentPath ++ [fileName ++ ".csv"])) = false := by
  induction tabs generalizing fs with
  | nil => exact h
  | cons tab rest ih =>
    simp only [List.foldl_cons]
    apply ih
    split
    · exact h
    · rw [contains_fsAdd_ne]
      · exact h
      · exact Ne.symm (renderPath_snoc_ne currentPath _ _ (tabName_length_ne fileName tab.title))

theorem moveFile_fallback (env : Env)
    (fileId fileName mimeType modifiedTime : String)
    (newPath : List String) (s : SyncState) (m : FileRecord)
    (hmeta : getFile s.files fileId = some m)
    (hmiss : s.fs.contains m.path = false) :
    moveFile env fileId fileName mimeType modifiedTime newPath s =
      syncFile env fileId fileName mimeType modifiedTime newPath s := by
  simp only [moveFile, hmeta]
  rw [if_neg (by rw [hmiss]; simp)]

/-- C10: a spreadsheet with several tabs is recorded at the path
name.csv although only the per-tab files name-tabtitle.csv are written
and nothing exists at name.csv; tombstoning such a record therefore
only drops the record and moves no file (the per-tab CSVs stay in
place), and a later Move classification, finding the recorded path
missing on disk, falls back to a full re-sync. -/
theorem c10_multitab_sheet_record (env : Env)
    (fileId fileName modifiedTime : String)
    (currentPath : List String) (st : SyncState)
    (htabs : 2 ≤ (getSheetTabs env fileId).length)
    (hnot : st.fs.contains (renderPath (currentPath ++ [fileName ++ ".csv"])) = false) :
    getFile (syncFile env fileId fileName MIME_spreadsheet modifiedTime currentPath st).files
        fileId =
      some ⟨renderPath (currentPath ++ [fileName ++ ".csv"]), modifiedTime, "sheet",
        none, env.now⟩ ∧
    (syncFile env fileId fileName MIME_spreadsheet modifiedTime currentPath st).fs.contains
        (renderPath (currentPath ++ [fileName ++ ".csv"])) = false ∧
    (∀ (s : SyncState) (i : String) (m : FileRecord),
      s.fs.contains m.path = false →
      moveToDeleted s i m = { s with files := removeFile s.files i }) ∧
    (∀ (env' : Env) (i n mt md : String) (p : List String) (s : SyncState)
        (m : FileRecord),
      getFile s.files i = some m → s.fs.contains m.path = false →
      moveFile env' i n mt md p s = syncFile env' i n mt md p s) := by
  have hdoc : isGoogleDoc MIME_spreadsheet = false := rfl
  have hsheet : isGoogleSheet MIME_spreadsheet = true := rfl
  have hlen : ¬ (getSheetTabs env fileId).length = 1 := by omega
  refine ⟨?_, ?_, moveToDeleted_absent, ?_⟩
  · simp only [syncFile, hdoc, hsheet, Bool.false_eq_true, if_false, if_true,
      syncGoogleSheet, if_neg hlen]
    exact getFile_dictInsert_self _ _ _
  · simp only [syncFile, hdoc, hsheet, Bool.false_eq_true, if_false, if_true,
      syncGoogleSheet, if_neg hlen]
    exact multiTab_fold_no_base_csv env fileId fileName currentPath _ _ hnot
  · intro env' i n mt md p s m hmeta hmiss
    exact moveFile_fallback env' i n mt md p s m hmeta hmiss

theorem c10_multitab_sheet_record_witness :
    getFile (syncFile sampleTwoTabEnv "s1" "Budget" MIME_spreadsheet "t1" []
        (initialState [] [])).files "s1" =
      some ⟨"Budget.csv", "t1", "sheet", none, "2024-01-01T00:00:00"⟩ :=
  (c10_multitab_sheet_record sampleTwoTabEnv "s1" "Budget" "t1" []
    (initialState [] []) (by decide) (by rfl)).1

theorem foldl_preserves_snd {α β : Type}
    (step : List α × MetadataData → β → List α × MetadataData)
    (l : List β) (init : List α × MetadataData)
    (h : ∀ p x, (step p x).2 = p.2) :
    (l.foldl step init).2 = init.2 := by
  induction l generalizing init with
  | nil => rfl
  | cons x xs ih =>
    rw [List.foldl_cons, ih, h]

/-- C9: collect_status never mutates the snapshot: the metadata state
it threads through every call it makes comes back exactly as it went
in — in particular the tracked-record set, the root folder identity,
and the last_sync value are identical before and after producing the
report, whether the walk succeeds or raises. -/
theorem c9_collect_status_pure (rootChildren : List Entry)
    (md : MetadataData) (fs : FS) :
    (collectStatus rootChildren md fs).2 = md ∧
    (collectStatus rootChildren md fs).2.files = md.files ∧
    (collectStatus rootChildren md fs).2.drive_folder_id = md.drive_folder_id ∧
    (collectStatus rootChildren md fs).2.drive_folder_name = md.drive_folder_name ∧
    (collectStatus rootChildren md fs).2.drive_folder_path = md.drive_folder_path ∧
    (collectStatus rootChildren md fs).2.last_sync = md.last_sync := by
  have hmain : (collectStatus rootChildren md fs).2 = md := by
    unfold collectStatus
    dsimp only [mDriveFolderId]
    cases hfid : md.drive_folder_id with
    | none => simp only [hfid]
    | some fid =>
      simp only [hfid]
      cases hc : collectDriveFiles rootChildren "" with
      | error e => simp only [hc]
      | ok remoteFiles =>
        simp only [hc]
        dsimp only [mDriveFolderDisplay, mTrackedPaths, mGetDeletedFiles]
        rw [foldl_preserves_snd, foldl_preserves_snd] <;> intro p x <;> rfl
  exact ⟨hmain, by rw [hmain], by rw [hmain], by rw [hmain], by rw [hmain],
    by rw [hmain]⟩

theorem isFileChanged_false_iff (files : Files) (fileId modifiedTime : String) :
    isFileChanged files fileId modifiedTime = false ↔
      ∃ r, getFile files fileId = some r ∧ r.modified_time = modifiedTime := by
  unfold isFileChanged
  cases h : getFile files fileId with
  | none => simp
  | some r =>
    simp only [bne_eq_false_iff_eq, Option.some.injEq]
    constructor
    · intro he
      exact ⟨r, rfl, he⟩
    · rintro ⟨r', hr', he⟩
      cases hr'
      exact he

theorem checkIfFileMoved_false_iff (files : Files) (fileId fileName : String)
    (currentPath : List String) (r : FileRecord)
    (h : getFile files fileId = some r) :
    checkIfFileMoved files fileId fileName currentPath = false ↔
      r.path = expectedRelPath r.ftype fileName currentPath := by
  unfold checkIfFileMoved
  rw [h]
  simp [bne_eq_false_iff_eq]

theorem syncFile_visited (env : Env)
    (fileId fileName mimeType modifiedTime : String)
    (currentPath : List String) (st : SyncState) :
    (syncFile env fileId fileName mimeType modifiedTime currentPath st).visited =
      st.visited := by
  simp only [syncFile]
  split
  · split <;> rfl
  · split
    · split <;> rfl
    · rfl

theorem syncFile_files_other (env : Env)
    (fileId fileName mimeType modifiedTime other : String)
    (currentPath : List String) (st : SyncState) (h : other ≠ fileId) :
    getFile (syncFile env fileId fileName mimeType modifiedTime currentPath st).files
        other =
      getFile st.files other := by
  simp only [syncFile]
  split
  · split
    · rfl
    · exact getFile_dictInsert_ne _ _ _ _ h
  · split
    · split
      · rfl
      · exact getFile_dictInsert_ne _ _ _ _ h
    · rfl

theorem syncFile_keysNodup (env : Env)
    (fileId fileName mimeType modifiedTime : String)
    (currentPath : List String) (st : SyncState) (h : keysNodup st.files) :
    keysNodup (syncFile env fileId fileName mimeType modifiedTime currentPath st).files := by
  simp only [syncFile]
  split
  · split
    · exact h
    · exact keysNodup_dictInsert _ _ _ h
  · split
    · split
      · exact h
      · exact keysNodup_dictInsert _ _ _ h
    · exact h

theorem syncFile_record (env : Env)
    (fileId fileName mimeType modifiedTime : String)
    (currentPath : List String) (st : SyncState)
    (hdoc : env.docExportFails fileId = false)
    (hsheet : env.sheetExportFails fileId = false)
    (hsupp : isSupportedFile mimeType = true) :
    ∃ ft, (syncFile env fileId fileName mimeType modifiedTime currentPath st).files =
      addFile st.files fileId (expectedRelPath ft fileName currentPath) modifiedTime
        ft none env.now := by
  by_cases hd : isGoogleDoc mimeType
  · refine ⟨"doc", ?_⟩
    simp only [syncFile, hd, if_true, syncGoogleDoc, hdoc, Bool.false_eq_true, if_false]
    rfl
  · have hs : isGoogleSheet mimeType = true := by
      unfold isSupportedFile at hsupp
      rcases Bool.or_eq_true_iff.mp hsupp with h | h
      · exact absurd h hd
      · exact h
    refine ⟨"sheet", ?_⟩
    have hd' : isGoogleDoc mimeType = false := Bool.eq_false_iff.mpr hd
    by_cases ht : (getSheetTabs env fileId).length = 1
    · simp only [syncFile, hd', Bool.false_eq_true, if_false, hs, if_true,
        syncGoogleSheet, if_pos ht, hsheet]
      rfl
    · simp only [syncFile, hd', Bool.false_eq_true, if_false, hs, if_true,
        syncGoogleSheet, if_neg ht]
      rfl

theorem moveFile_visited (env : Env)
    (fileId fileName mimeType modifiedTime : String)
    (newPath : List String) (st : SyncState) :
    (moveFile env fileId fileName mimeType modifiedTime newPath st).visited =
      st.visited := by
  simp only [moveFile]
  split
  · rfl
  · split
    · rfl
    · exact syncFile_visited env fileId fileName mimeType modifiedTime newPath st

theorem moveFile_files_other (env : Env)
    (fileId fileName mimeType modifiedTime other : String)
    (newPath : List String) (st : SyncState) (h : other ≠ fileId) :
    getFile (moveFile env fileId fileName mimeType modifiedTime newPath st).files
        other =
      getFile st.files other := by
  simp only [moveFile]
  split
  · rfl
  · split
    · exact getFile_dictInsert_ne _ _ _ _ h
    · exact syncFile_files_other env fileId fileName mimeType modifiedTime other
        newPath st h

theorem moveFile_keysNodup (env : Env)
    (fileId fileName mimeType modifiedTime : String)
    (newPath : List String) (st : SyncState) (h : keysNodup st.files) :
    keysNodup (moveFile env fileId fileName mimeType modifiedTime newPath st).files := by
  simp only [moveFile]
  split
  · exact h
  · split
    · exact keysNodup_dictInsert _ _ _ h
    · exact syncFile_keysNodup env fileId fileName mimeType modifiedTime newPath st h

theorem moveFile_record (env : Env)
    (fileId fileName mimeType modifiedTime : String)
    (newPath : List String) (st : SyncState) (fileMeta : FileRecord)
    (hmeta : getFile st.files fileId = some fileMeta)
    (hdoc : env.docExportFails fileId = false)
    (hsheet : env.sheetExportFails fileId = false)
    (hsupp : isSupportedFile mimeType = true) :
    ∃ ft, (moveFile env fileId fileName mimeType modifiedTime newPath st).files =
      addFile st.files fileId (expectedRelPath ft fileName newPath) modifiedTime
        ft none env.now := by
  simp only [moveFile, hmeta]
  split
  · exact ⟨fileMeta.ftype, rfl⟩
  · exact syncFile_record env fileId fileName mimeType modifiedTime newPath st
      hdoc hsheet hsupp

theorem processItem_visited (env : Env)
    (fileId fileName mimeType modifiedTime : String)
    (currentPath : List String) (st : SyncState) :
    (processItem env fileId fileName mimeType modifiedTime currentPath st).visited =
      st.visited := by
  simp only [processItem]
  split
  · exact syncFile_visited _ _ _ _ _ _ _
  · split
    · exact moveFile_visited _ _ _ _ _ _ _
    · rfl

theorem processItem_files_other (env : Env)
    (fileId fileName mimeType modifiedTime other : String)
    (currentPath : List String) (st : SyncState) (h : other ≠ fileId) :
    getFile (processItem env fileId fileName mimeType modifiedTime currentPath st).files
        other =
      getFile st.files other := by
  simp only [processItem]
  split
  · exact syncFile_files_other _ _ _ _ _ _ _ _ h
  · split
    · exact moveFile_files_other _ _ _ _ _ _ _ _ h
    · rfl

theorem processItem_keysNodup (env : Env)
    (fileId fileName mimeType modifiedTime : String)
    (currentPath : List String) (st : SyncState) (h : keysNodup st.files) :
    keysNodup
      (processItem env fileId fileName mimeType modifiedTime currentPath st).files := by
  simp only [processItem]
  split
  · exact syncFile_keysNodup _ _ _ _ _ _ _ h
  · split
    · exact moveFile_keysNodup _ _ _ _ _ _ _ h
    · exact h

theorem processItem_stable (env : Env)
    (fileId fileName mimeType modifiedTime : String)
    (currentPath : List String) (st : SyncState)
    (hdoc : env.docExportFails fileId = false)
    (hsheet : env.sheetExportFails fileId = false)
    (hsupp : isSupportedFile mimeType = true) :
    stableItem
      (processItem env fileId fileName mimeType modifiedTime currentPath st).files
      fileId fileName modifiedTime currentPath := by
  simp only [processItem]
  split
  · obtain ⟨ft, hft⟩ := syncFile_record env fileId fileName mimeType modifiedTime
      currentPath st hdoc hsheet hsupp
    rw [hft]
    exact ⟨_, getFile_dictInsert_self _ _ _, rfl, rfl⟩
  · rename_i hchanged
    rw [Bool.not_eq_true] at hchanged
    obtain ⟨r, hr, hmt⟩ := (isFileChanged_false_iff _ _ _).mp hchanged
    split
    · obtain ⟨ft, hft⟩ := moveFile_record env fileId fileName mimeType modifiedTime
        currentPath st r hr hdoc hsheet hsupp
      rw [hft]
      exact ⟨_, getFile_dictInsert_self _ _ _, rfl, rfl⟩
    · rename_i hmoved
      rw [Bool.not_eq_true] at hmoved
      exact ⟨r, hr, hmt, (checkIfFileMoved_false_iff _ _ _ _ r hr).mp hmoved⟩

theorem processItem_of_stable (env : Env)
    (fileId fileName mimeType modifiedTime : String)
    (currentPath : List String) (st : SyncState)
    (h : stableItem st.files fileId fileName modifiedTime currentPath) :
    processItem env fileId fileName mimeType modifiedTime currentPath st =
      { st with stats := st.stats.incUnchanged } := by
  obtain ⟨r, hr, hmt, hpath⟩ := h
  have hchanged : isFileChanged st.files fileId modifiedTime = false :=
    (isFileChanged_false_iff _ _ _).mpr ⟨r, hr, hmt⟩
  have hmoved : checkIfFileMoved st.files fileId fileName currentPath = false :=
    (checkIfFileMoved_false_iff _ _ _ _ r hr).mpr hpath
  simp [processItem, hchanged, hmoved]

theorem visit_contains_self (visited : List String) (fileId : String) :
    (visit visited fileId).contains fileId = true := by
  unfold visit
  split
  · assumption
  · simp [List.contains_cons]

theorem visit_contains_mono (visited : List String) (fileId other : String)
    (h : visited.contains other = true) :
    (visit visited fileId).contains other = true := by
  unfold visit
  split
  · exact h
  · simp only [List.contains_cons, Bool.or_eq_true]
    exact Or.inr h

theorem visit_contains_inv (visited : List String) (fileId other : String)
    (h : (visit visited fileId).contains other = true) :
    other = fileId ∨ visited.contains other = true := by
  unfold visit at h
  split at h
  · exact Or.inr h
  · simp only [List.contains_cons, Bool.or_eq_true, beq_iff_eq] at h
    rcases h with h | h
    · exact Or.inl h
    · exact Or.inr h

theorem one_le_sizeOf_entries (l : List Entry) : 1 ≤ sizeOf l := by
  cases l <;> simp_arith

theorem sizeOf_entry_parts (i n m t : String) (cs : List Entry) (lf : Bool)
    (rest : List Entry) :
    sizeOf cs < sizeOf (Entry.mk i n m t cs lf :: rest) ∧
    sizeOf rest < sizeOf (Entry.mk i n m t cs lf :: rest) := by
  simp_arith

theorem syncEntries_frame (env : Env) :
    ∀ (fuel : Nat) (entries : List Entry) (currentPath : List String)
      (st st' : SyncState) (err : Option String),
      sizeOf entries ≤ fuel →
      syncEntries env entries currentPath st = (st', err) →
      (∀ id, id ∉ treeIds entries → getFile st'.files id = getFile st.files id) ∧
      (keysNodup st.files → keysNodup st'.files) ∧
      (∀ id, st.visited.contains id = true → st'.visited.contains id = true) ∧
      (∀ id, st'.visited.contains id = true →
        st.visited.contains id = true ∨ id ∈ treeIds entries) := by
  intro fuel
  induction fuel with
  | zero =>
    intro entries currentPath st st' err hsz heq
    have := one_le_sizeOf_entries entries
    omega
  | succ fuel ih =>
    intro entries currentPath st st' err hsz heq
    cases entries with
    | nil =>
      rw [syncEntries] at heq
      cases heq
      exact ⟨fun id h => rfl, fun h => h, fun id h => h, fun id h => Or.inl h⟩
    | cons e rest =>
      obtain ⟨i, n, m, t, cs, lf⟩ := e
      obtain ⟨hcs_lt, hrest_lt⟩ := sizeOf_entry_parts i n m t cs lf rest
      have hcs_le : sizeOf cs ≤ fuel := by omega
      have hrest_le : sizeOf rest ≤ fuel := by omega
      have htree : treeIds (Entry.mk i n m t cs lf :: rest) =
          i :: ((if isFolder m then treeIds cs else []) ++ treeIds rest) := by
        rw [treeIds]
      simp only [syncEntries] at heq
      split at heq
      · -- folder child
        rename_i hm
        split at heq
        · -- the inner folder frame raised: this frame re-raises
          rename_i st3 msg hinner
          cases heq
          split at hinner
          · -- the child folder listing failed
            rw [Prod.mk.injEq] at hinner
            obtain ⟨h31, h32⟩ := hinner
            subst h31
            rw [htree]
            refine ⟨fun id h => rfl, fun h => h,
              fun id h => visit_contains_mono _ _ _ h, fun id h => ?_⟩
            rcases visit_contains_inv _ _ _ h with h | h
            · exact Or.inr (by simp [h])
            · exact Or.inl h
          · split at hinner
            · -- children walk succeeded: contradicts the raised error
              rw [Prod.mk.injEq] at hinner
              exact Option.noConfusion hinner.2
            · -- children walk failed deeper down
              rename_i st4 msg4 heq2
              rw [Prod.mk.injEq] at hinner
              obtain ⟨h31, h32⟩ := hinner
              subst h31
              obtain ⟨ha2, hb2, hc2, hd2⟩ :=
                ih cs (currentPath ++ [n]) _ st4 (some msg4) hcs_le heq2
              rw [htree]
              simp only [hm, if_true]
              refine ⟨?_, ?_, ?_, ?_⟩
              · intro id h
                simp only [List.mem_cons, List.mem_append] at h
                push_neg at h
                exact ha2 id h.2.1
              · intro h
                exact hb2 h
              · intro id h
                exact hc2 id (visit_contains_mono _ _ _ h)
              · intro id h
                rcases hd2 id h with h | h
                · rcases visit_contains_inv _ _ _ h with h | h
                  · exact Or.inr (by simp [h])
                  · exact Or.inl h
                · exact Or.inr (by simp [h])
        · -- the inner folder frame returned cleanly; continue with rest
          rename_i st3 hinner
          split at hinner
          · -- listing failed yet frame returned none: impossible
            rw [Prod.mk.injEq] at hinner
            exact Option.noConfusion hinner.2
          · split at hinner
            · -- children walk succeeded
              rename_i st4 heq2
              rw [Prod.mk.injEq] at hinner
              obtain ⟨h31, h32⟩ := hinner
              subst h31
              obtain ⟨ha2, hb2, hc2, hd2⟩ :=
                ih cs (currentPath ++ [n]) _ st4 none hcs_le heq2
              obtain ⟨ha1, hb1, hc1, hd1⟩ :=
                ih rest currentPath st4 st' err hrest_le heq
              rw [htree]
              simp only [hm, if_true]
              refine ⟨?_, ?_, ?_, ?_⟩
              · intro id h
                simp only [List.mem_cons, List.mem_append] at h
                push_neg at h
                rw [ha1 id h.2.2, ha2 id h.2.1]
              · intro h
                exact hb1 (hb2 h)
              · intro id h
                exact hc1 id (hc2 id (visit_contains_mono _ _ _ h))
              · intro id h
                rcases hd1 id h with h | h
                · rcases hd2 id h with h | h
                  · rcases visit_contains_inv _ _ _ h with h | h
                    · exact Or.inr (by simp [h])
                    · exact Or.inl h
                  · exact Or.inr (by simp [h])
                · exact Or.inr (by simp [h])
            · -- children walk failed yet frame returned none: impossible
              rw [Prod.mk.injEq] at hinner
              exact Option.noConfusion hinner.2
      · split at heq
        · -- supported item
          rename_i hm hsupp
          obtain ⟨ha1, hb1, hc1, hd1⟩ :=
            ih rest currentPath _ st' err hrest_le heq
          have hmfalse : isFolder m = false := Bool.eq_false_iff.mpr hm
          rw [htree]
          simp only [hmfalse, Bool.false_eq_true, if_false, List.nil_append]
          refine ⟨?_, ?_, ?_, ?_⟩
          · intro id h
            simp only [List.mem_cons] at h
            push_neg at h
            rw [ha1 id h.2]
            exact processItem_files_other env i n m t id currentPath _ h.1
          · intro h
            exact hb1 (processItem_keysNodup env i n m t currentPath _ h)
          · intro id h
            refine hc1 id ?_
            rw [processItem_visited]
            exact visit_contains_mono _ _ _ h
          · intro id h
            rcases hd1 id h with h | h
            · rw [processItem_visited] at h
              rcases visit_contains_inv _ _ _ h with h | h
              · exact Or.inr (by simp [h])
              · exact Or.inl h
            · exact Or.inr (by simp [h])
        · -- unsupported item: a counted no-op
          rename_i hm hsupp
          obtain ⟨ha1, hb1, hc1, hd1⟩ :=
            ih rest currentPath _ st' err hrest_le heq
          have hmfalse : isFolder m = false := Bool.eq_false_iff.mpr hm
          rw [htree]
          simp only [hmfalse, Bool.false_eq_true, if_false, List.nil_append]
          refine ⟨?_, ?_, ?_, ?_⟩
          · intro id h
            simp only [List.mem_cons] at h
            push_neg at h
            exact ha1 id h.2
          · intro h
            exact hb1 h
          · intro id h
            exact hc1 id (visit_contains_mono _ _ _ h)
          · intro id h
            rcases hd1 id h with h | h
            · rcases visit_contains_inv _ _ _ h with h | h
              · exact Or.inr (by simp [h])
              · exact Or.inl h
            · exact Or.inr (by simp [h])

theorem stableTree_frame :
    ∀ (fuel : Nat) (entries : List Entry) (currentPath : List String)
      (F F' : Files),
      sizeOf entries ≤ fuel →
      stableTree F entries currentPath →
      (∀ id, id ∈ treeIds entries → getFile F' id = getFile F id) →
      stableTree F' entries currentPath := by
  intro fuel
  induction fuel with
  | zero =>
    intro entries currentPath F F' hsz
    have := one_le_sizeOf_entries entries
    omega
  | succ fuel ih =>
    intro entries currentPath F F' hsz hstable hframe
    cases entries with
    | nil =>
      rw [stableTree]
      trivial
    | cons e rest =>
      obtain ⟨i, n, m, t, cs, lf⟩ := e
      obtain ⟨hcs_lt, hrest_lt⟩ := sizeOf_entry_parts i n m t cs lf rest
      have hcs_le : sizeOf cs ≤ fuel := by omega
      have hrest_le : sizeOf rest ≤ fuel := by omega
      have htree : treeIds (Entry.mk i n m t cs lf :: rest) =
          i :: ((if isFolder m then treeIds cs else []) ++ treeIds rest) := by
        rw [treeIds]
      rw [stableTree] at hstable ⊢
      obtain ⟨hhead, hrest⟩ := hstable
      constructor
      · by_cases hm : isFolder m = true
        · rw [if_pos hm] at hhead ⊢
          refine ih cs (currentPath ++ [n]) F F' hcs_le hhead ?_
          intro id hid
          refine hframe id ?_
          rw [htree]
          simp [hm, hid]
        · rw [if_neg hm] at hhead ⊢
          by_cases hsupp : isSupportedFile m = true
          · rw [if_pos hsupp] at hhead ⊢
            obtain ⟨r, hr, hmt, hpath⟩ := hhead
            refine ⟨r, ?_, hmt, hpath⟩
            rw [hframe i (by rw [htree]; simp)]
            exact hr
          · rw [if_neg hsupp] at hhead ⊢
            trivial
      · refine ih rest currentPath F F' hrest_le hrest ?_
        intro id hid
        refine hframe id ?_
        rw [htree]
        simp [hid]

theorem syncEntries_clean (env : Env)
    (hdocAll : ∀ id, env.docExportFails id = false)
    (hsheetAll : ∀ id, env.sheetExportFails id = false) :
    ∀ (fuel : Nat) (entries : List Entry) (currentPath : List String)
      (st st' : SyncState) (err : Option String),
      sizeOf entries ≤ fuel →
      cleanTree entries = true →
      (treeIds entries).Nodup →
      syncEntries env entries currentPath st = (st', err) →
      err = none ∧ stableTree st'.files entries currentPath ∧
      (∀ id, id ∈ treeIds entries → st'.visited.contains id = true) := by
  intro fuel
  induction fuel with
  | zero =>
    intro entries currentPath st st' err hsz
    have := one_le_sizeOf_entries entries
    omega
  | succ fuel ih =>
    intro entries currentPath st st' err hsz hclean hnodup heq
    cases entries with
    | nil =>
      rw [syncEntries] at heq
      cases heq
      refine ⟨rfl, ?_, ?_⟩
      · rw [stableTree]
        trivial
      · intro id hid
        rw [treeIds] at hid
        simp at hid
    | cons e rest =>
      obtain ⟨i, n, m, t, cs, lf⟩ := e
      obtain ⟨hcs_lt, hrest_lt⟩ := sizeOf_entry_parts i n m t cs lf rest
      have hcs_le : sizeOf cs ≤ fuel := by omega
      have hrest_le : sizeOf rest ≤ fuel := by omega
      have htree : treeIds (Entry.mk i n m t cs lf :: rest) =
          i :: ((if isFolder m then treeIds cs else []) ++ treeIds rest) := by
        rw [treeIds]
      rw [cleanTree] at hclean
      rw [Bool.and_eq_true] at hclean
      obtain ⟨hcheadclean, hrestclean⟩ := hclean
      rw [htree] at hnodup
      rw [List.nodup_cons] at hnodup
      obtain ⟨hinotin, hnodup2⟩ := hnodup
      rw [List.nodup_append] at hnodup2
      obtain ⟨hnodupcs, hnoduprest, hdisj⟩ := hnodup2
      simp only [syncEntries] at heq
      split at heq
      · -- folder child
        rename_i hm
        rw [if_pos hm, Bool.and_eq_true] at hcheadclean
        obtain ⟨hlfclean, hcsclean⟩ := hcheadclean
        have hlf : lf = false := by
          cases lf
          · rfl
          · simp at hlfclean
        rw [if_pos hm] at hnodupcs hdisj hinotin
        split at heq
        · -- inner frame raised: impossible on a clean tree
          rename_i st3 msg hinner
          exfalso
          split at hinner
          · rename_i hlftrue
            rw [hlf] at hlftrue
            exact Bool.noConfusion hlftrue
          · split at hinner
            · rw [Prod.mk.injEq] at hinner
              exact Option.noConfusion hinner.2
            · rename_i st4 msg4 heq2
              have := (ih cs (currentPath ++ [n]) _ st4 (some msg4) hcs_le
                hcsclean hnodupcs heq2).1
              exact Option.noConfusion this
        · -- inner frame clean
          rename_i st3 hinner
          split at hinner
          · rename_i hlftrue
            rw [hlf] at hlftrue
            exact Bool.noConfusion hlftrue
          · split at hinner
            · rename_i st4 heq2
              rw [Prod.mk.injEq] at hinner
              obtain ⟨h31, h32⟩ := hinner
              subst h31
              obtain ⟨_, hstable4, hvis4⟩ :=
                ih cs (currentPath ++ [n]) _ st4 none hcs_le hcsclean hnodupcs heq2
              obtain ⟨_, hstablerest, hvisrest⟩ :=
                ih rest currentPath st4 st' err hrest_le hrestclean hnoduprest heq
              obtain ⟨hfrA, hfrB, hfrC, hfrD⟩ :=
                syncEntries_frame env (sizeOf rest) rest currentPath st4 st' err
                  (le_refl _) heq
              obtain ⟨hfrA2, hfrB2, hfrC2, hfrD2⟩ :=
                syncEntries_frame env (sizeOf cs) cs (currentPath ++ [n]) _ st4 none
                  (le_refl _) heq2
              have herr : err = none :=
                (ih rest currentPath st4 st' err hrest_le hrestclean hnoduprest heq).1
              refine ⟨herr, ?_, ?_⟩
              · rw [stableTree]
                rw [if_pos hm]
                refine ⟨?_, hstablerest⟩
                refine stableTree_frame (sizeOf cs) cs (currentPath ++ [n])
                  st4.files st'.files (le_refl _) hstable4 ?_
                intro id hid
                refine hfrA id ?_
                intro hmem
                exact hdisj hid hmem
              · intro id hid
                rw [htree] at hid
                simp only [List.mem_cons, List.mem_append] at hid
                rw [if_pos hm] at hid
                rcases hid with hid | hid | hid
                · subst hid
                  refine hfrC id (hfrC2 id ?_)
                  exact visit_contains_self _ _
                · exact hfrC id (hvis4 id hid)
                · exact hvisrest id hid
            · rw [Prod.mk.injEq] at hinner
              exact Option.noConfusion hinner.2
      · split at heq
        · -- supported item
          rename_i hm hsupp
          have hmfalse : isFolder m = false := Bool.eq_false_iff.mpr hm
          rw [if_neg hm] at hinotin
          simp only [List.nil_append] at hinotin
          obtain ⟨_, hstablerest, hvisrest⟩ :=
            ih rest currentPath _ st' err hrest_le hrestclean hnoduprest heq
          obtain ⟨hfrA, hfrB, hfrC, hfrD⟩ :=
            syncEntries_frame env (sizeOf rest) rest currentPath _ st' err
              (le_refl _) heq
          have herr : err = none :=
            (ih rest currentPath _ st' err hrest_le hrestclean hnoduprest heq).1
          refine ⟨herr, ?_, ?_⟩
          · rw [stableTree]
            rw [if_neg (by rw [hmfalse]; simp : ¬ isFolder m = true), if_pos hsupp]
            refine ⟨?_, hstablerest⟩
            have hstable2 := processItem_stable env i n m t currentPath
              { st with visited := visit st.visited i }
              (hdocAll i) (hsheetAll i) hsupp
            obtain ⟨r, hr, hmt, hpath⟩ := hstable2
            refine ⟨r, ?_, hmt, hpath⟩
            rw [hfrA i hinotin]
            exact hr
          · intro id hid
            rw [htree] at hid
            simp only [hmfalse, Bool.false_eq_true, if_false, List.nil_append,
              List.mem_cons] at hid
            rcases hid with hid | hid
            · subst hid
              refine hfrC id ?_
              rw [processItem_visited]
              exact visit_contains_self _ _
            · exact hvisrest id hid
        · -- unsupported item
          rename_i hm hsupp
          have hmfalse : isFolder m = false := Bool.eq_false_iff.mpr hm
          obtain ⟨_, hstablerest, hvisrest⟩ :=
            ih rest currentPath _ st' err hrest_le hrestclean hnoduprest heq
          obtain ⟨hfrA, hfrB, hfrC, hfrD⟩ :=
            syncEntries_frame env (sizeOf rest) rest currentPath _ st' err
              (le_refl _) heq
          have herr : err = none :=
            (ih rest currentPath _ st' err hrest_le hrestclean hnoduprest heq).1
          refine ⟨herr, ?_, ?_⟩
          · rw [stableTree]
            rw [if_neg (by rw [hmfalse]; simp : ¬ isFolder m = true), if_neg hsupp]
            exact ⟨trivial, hstablerest⟩
          · intro id hid
            rw [htree] at hid
            simp only [hmfalse, Bool.false_eq_true, if_false, List.nil_append,
              List.mem_cons] at hid
            rcases hid with hid | hid
            · subst hid
              exact hfrC id (visit_contains_self _ _)
            · exact hvisrest id hid

theorem syncEntries_stable (env : Env) :
    ∀ (fuel : Nat) (entries : List Entry) (currentPath : List String)
      (st st' : SyncState) (err : Option String),
      sizeOf entries ≤ fuel →
      cleanTree entries = true →
      stableTree st.files entries currentPath →
      syncEntries env entries currentPath st = (st', err) →
      err = none ∧ st'.files = st.files ∧ st'.fs = st.fs ∧
      st'.exports = st.exports ∧
      st'.stats.new = st.stats.new ∧ st'.stats.updated = st.stats.updated ∧
      st'.stats.moved = st.stats.moved ∧ st'.stats.deleted = st.stats.deleted ∧
      (∀ id, id ∈ treeIds entries → st'.visited.contains id = true) := by
  intro fuel
  induction fuel with
  | zero =>
    intro entries currentPath st st' err hsz
    have := one_le_sizeOf_entries entries
    omega
  | succ fuel ih =>
    intro entries currentPath st st' err hsz hclean hstable heq
    cases entries with
    | nil =>
      rw [syncEntries] at heq
      cases heq
      refine ⟨rfl, rfl, rfl, rfl, rfl, rfl, rfl, rfl, ?_⟩
      intro id hid
      rw [treeIds] at hid
      simp at hid
    | cons e rest =>
      obtain ⟨i, n, m, t, cs, lf⟩ := e
      obtain ⟨hcs_lt, hrest_lt⟩ := sizeOf_entry_parts i n m t cs lf rest
      have hcs_le : sizeOf cs ≤ fuel := by omega
      have hrest_le : sizeOf rest ≤ fuel := by omega
      have htree : treeIds (Entry.mk i n m t cs lf :: rest) =
          i :: ((if isFolder m then treeIds cs else []) ++ treeIds rest) := by
        rw [treeIds]
      rw [cleanTree] at hclean
      rw [Bool.and_eq_true] at hclean
      obtain ⟨hcheadclean, hrestclean⟩ := hclean
      rw [stableTree] at hstable
      obtain ⟨hsthead, hstrest⟩ := hstable
      simp only [syncEntries] at heq
      split at heq
      · -- folder child
        rename_i hm
        rw [if_pos hm, Bool.and_eq_true] at hcheadclean
        obtain ⟨hlfclean, hcsclean⟩ := hcheadclean
        have hlf : lf = false := by
          cases lf
          · rfl
          · simp at hlfclean
        rw [if_pos hm] at hsthead
        split at heq
        · -- inner frame raised: impossible on a clean stable tree
          rename_i st3 msg hinner
          exfalso
          split at hinner
          · rename_i hlftrue
            rw [hlf] at hlftrue
            exact Bool.noConfusion hlftrue
          · split at hinner
            · rw [Prod.mk.injEq] at hinner
              exact Option.noConfusion hinner.2
            · rename_i st4 msg4 heq2
              have := (ih cs (currentPath ++ [n]) _ st4 (some msg4) hcs_le
                hcsclean (by exact hsthead) heq2).1
              exact Option.noConfusion this
        · rename_i st3 hinner
          split at hinner
          · rename_i hlftrue
            rw [hlf] at hlftrue
            exact Bool.noConfusion hlftrue
          · split at hinner
            · rename_i st4 heq2
              rw [Prod.mk.injEq] at hinner
              obtain ⟨h31, h32⟩ := hinner
              subst h31
              obtain ⟨_, hfiles4, hfs4, hexp4, hnew4, hupd4, hmov4, hdel4, hvis4⟩ :=
                ih cs (currentPath ++ [n]) _ st4 none hcs_le hcsclean
                  (by exact hsthead) heq2
              have hstrest4 : stableTree st4.files rest currentPath := by
                rw [show st4.files = st.files from hfiles4]
                exact hstrest
              obtain ⟨herr, hfiles1, hfs1, hexp1, hnew1, hupd1, hmov1, hdel1, hvis1⟩ :=
                ih rest currentPath st4 st' err hrest_le hrestclean hstrest4 heq
              obtain ⟨hfrA, hfrB, hfrC, hfrD⟩ :=
                syncEntries_frame env (sizeOf rest) rest currentPath st4 st' err
                  (le_refl _) heq
              refine ⟨herr, hfiles1.trans hfiles4, hfs1.trans hfs4,
                hexp1.trans hexp4, hnew1.trans hnew4, hupd1.trans hupd4,
                hmov1.trans hmov4, hdel1.trans hdel4, ?_⟩
              intro id hid
              rw [htree] at hid
              simp only [hm, if_true, List.mem_cons, List.mem_append] at hid
              rcases hid with hid | hid | hid
              · subst hid
                obtain ⟨_, _, hfrC2, _⟩ :=
                  syncEntries_frame env (sizeOf cs) cs (currentPath ++ [n]) _ st4
                    none (le_refl _) heq2
                exact hfrC id (hfrC2 id (visit_contains_self _ _))
              · exact hfrC id (hvis4 id hid)
              · exact hvis1 id hid
            · rw [Prod.mk.injEq] at hinner
              exact Option.noConfusion hinner.2
      · split at heq
        · -- supported item: stable, so a counted no-op
          rename_i hm hsupp
          have hmfalse : isFolder m = false := Bool.eq_false_iff.mpr hm
          rw [if_neg hm, if_pos hsupp] at hsthead
          rw [processItem_of_stable env i n m t currentPath
            { st with visited := visit st.visited i } hsthead] at heq
          obtain ⟨herr, hfiles1, hfs1, hexp1, hnew1, hupd1, hmov1, hdel1, hvis1⟩ :=
            ih rest currentPath _ st' err hrest_le hrestclean (by exact hstrest) heq
          obtain ⟨hfrA, hfrB, hfrC, hfrD⟩ :=
            syncEntries_frame env (sizeOf rest) rest currentPath _ st' err
              (le_refl _) heq
          refine ⟨herr, hfiles1, hfs1, hexp1, ?_, ?_, ?_, ?_, ?_⟩
          · rw [hnew1]; rfl
          · rw [hupd1]; rfl
          · rw [hmov1]; rfl
          · rw [hdel1]; rfl
          · intro id hid
            rw [htree] at hid
            simp only [hmfalse, Bool.false_eq_true, if_false, List.nil_append,
              List.mem_cons] at hid
            rcases hid with hid | hid
            · subst hid
              exact hfrC id (visit_contains_self _ _)
            · exact hvis1 id hid
        · -- unsupported item
          rename_i hm hsupp
          have hmfalse : isFolder m = false := Bool.eq_false_iff.mpr hm
          obtain ⟨herr, hfiles1, hfs1, hexp1, hnew1, hupd1, hmov1, hdel1, hvis1⟩ :=
            ih rest currentPath _ st' err hrest_le hrestclean (by exact hstrest) heq
          obtain ⟨hfrA, hfrB, hfrC, hfrD⟩ :=
            syncEntries_frame env (sizeOf rest) rest currentPath _ st' err
              (le_refl _) heq
          refine ⟨herr, hfiles1, hfs1, hexp1, ?_, ?_, ?_, ?_, ?_⟩
          · rw [hnew1]; rfl
          · rw [hupd1]; rfl
          · rw [hmov1]; rfl
          · rw [hdel1]; rfl
          · intro id hid
            rw [htree] at hid
            simp only [hmfalse, Bool.false_eq_true, if_false, List.nil_append,
              List.mem_cons] at hid
            rcases hid with hid | hid
            · subst hid
              exact hfrC id (visit_contains_self _ _)
            · exact hvis1 id hid

theorem mem_keys_getFile_ne_none (files : Files) (p : String × FileRecord)
    (h : p ∈ files) : getFile files p.1 ≠ none := by
  simp only [ne_eq, getFile_eq_none_iff, not_not]
  exact List.mem_map.mpr ⟨p, h, rfl⟩

theorem hd_getFile_notvisited (st : SyncState) (visitedIds : List String)
    (fileId : String) (hnodup : keysNodup st.files)
    (hnot : visitedIds.contains fileId = false) :
    getFile (handleDeletions st visitedIds).files fileId = none := by
  cases hmeta : getFile st.files fileId with
  | some meta => exact hd_getFile_none st visitedIds fileId meta hnodup hmeta hnot
  | none =>
    simp only [handleDeletions]
    split
    · exact hmeta
    · rw [foldDel_files]
      exact foldRemove_none_preserved _ _ _ hmeta

/-- C4: with an unchanged remote (identical listings and markers, all
ids distinct, no listing or export failures), a second full reconcile
pass right after a first one reports zero new, updated, moved and
deleted items and leaves the tracked-record set exactly as the first
pass left it. -/
theorem c4_reconcile_idempotent (env : Env) (root : Entry)
    (files0 : Files) (fs0 : FS)
    (hdocAll : ∀ id, env.docExportFails id = false)
    (hsheetAll : ∀ id, env.sheetExportFails id = false)
    (hroot : cleanRoot root = true)
    (hids : (treeIds root.children).Nodup)
    (hkeys : keysNodup files0) :
    (runPull env root files0 fs0).2 = none ∧
    (runPull env root (runPull env root files0 fs0).1.files
      (runPull env root files0 fs0).1.fs).2 = none ∧
    (runPull env root (runPull env root files0 fs0).1.files
      (runPull env root files0 fs0).1.fs).1.stats.new = 0 ∧
    (runPull env root (runPull env root files0 fs0).1.files
      (runPull env root files0 fs0).1.fs).1.stats.updated = 0 ∧
    (runPull env root (runPull env root files0 fs0).1.files
      (runPull env root files0 fs0).1.fs).1.stats.moved = 0 ∧
    (runPull env root (runPull env root files0 fs0).1.files
      (runPull env root files0 fs0).1.fs).1.stats.deleted = 0 ∧
    (runPull env root (runPull env root files0 fs0).1.files
      (runPull env root files0 fs0).1.fs).1.files =
      (runPull env root files0 fs0).1.files := by
  obtain ⟨rootId, rootName, rootMime, rootT, children, rootLf⟩ := root
  simp only [cleanRoot, Entry.listFails, Entry.children, Bool.and_eq_true] at hroot
  obtain ⟨hlfbang, hctree⟩ := hroot
  have hlf : rootLf = false := by
    cases rootLf
    · rfl
    · simp at hlfbang
  simp only [Entry.children] at hids
  subst hlf
  -- first pass: the walk
  rcases h1 : syncEntries env children [] (initialState files0 fs0) with ⟨stW, err1⟩
  obtain ⟨herr1, hstable1, hcover1⟩ :=
    syncEntries_clean env hdocAll hsheetAll (sizeOf children) children []
      (initialState files0 fs0) stW err1 (le_refl _) hctree hids h1
  subst herr1
  obtain ⟨hfrA1, hfrB1, hfrC1, hfrD1⟩ :=
    syncEntries_frame env (sizeOf children) children []
      (initialState files0 fs0) stW none (le_refl _) h1
  have hWkeys : keysNodup stW.files := hfrB1 hkeys
  have hvis1sub : ∀ id, stW.visited.contains id = true → id ∈ treeIds children := by
    intro id h
    rcases hfrD1 id h with h | h
    · exact absurd h (by simp [initialState])
    · exact h
  have htop1 : syncFolderTop env (Entry.mk rootId rootName rootMime rootT children false)
      (initialState files0 fs0) = (stW, none) := by
    simp only [syncFolderTop, Bool.false_eq_true, if_false, h1]
  have hrun1 : runPull env (Entry.mk rootId rootName rootMime rootT children false)
      files0 fs0 = (handleDeletions stW stW.visited, none) := by
    simp only [runPull, htop1]
  -- the state the first pass leaves behind
  have hst1keys : keysNodup (handleDeletions stW stW.visited).files :=
    hd_keysNodup stW stW.visited hWkeys
  have hst1stable : stableTree (handleDeletions stW stW.visited).files children [] := by
    refine stableTree_frame (sizeOf children) children [] stW.files
      (handleDeletions stW stW.visited).files (le_refl _) hstable1 ?_
    intro id hid
    exact hd_getFile_frame stW stW.visited id (hcover1 id hid)
  have hst1mem : ∀ p ∈ (handleDeletions stW stW.visited).files,
      stW.visited.contains p.1 = true := by
    intro p hp
    by_cases hv : stW.visited.contains p.1 = true
    · exact hv
    · exfalso
      have hnone := hd_getFile_notvisited stW stW.visited p.1 hWkeys
        (Bool.eq_false_iff.mpr hv)
      exact mem_keys_getFile_ne_none _ p hp hnone
  -- second pass: the walk is a counted no-op
  rcases h2 : syncEntries env children []
    (initialState (handleDeletions stW stW.visited).files
      (handleDeletions stW stW.visited).fs) with ⟨stW2, err2⟩
  obtain ⟨herr2, hfiles2, hfs2, hexp2, hnew2, hupd2, hmov2, hdel2, hcover2⟩ :=
    syncEntries_stable env (sizeOf children) children []
      (initialState (handleDeletions stW stW.visited).files
        (handleDeletions stW stW.visited).fs) stW2 err2 (le_refl _) hctree
      (by exact hst1stable) h2
  subst herr2
  have hfiles2s : stW2.files = (handleDeletions stW stW.visited).files := hfiles2
  have hnew2s : stW2.stats.new = 0 := hnew2
  have hupd2s : stW2.stats.updated = 0 := hupd2
  have hmov2s : stW2.stats.moved = 0 := hmov2
  have hdel2s : stW2.stats.deleted = 0 := hdel2
  have htop2 : syncFolderTop env (Entry.mk rootId rootName rootMime rootT children false)
      (initialState (handleDeletions stW stW.visited).files
        (handleDeletions stW stW.visited).fs) = (stW2, none) := by
    simp only [syncFolderTop, Bool.false_eq_true, if_false, h2]
  have hrun2 : runPull env (Entry.mk rootId rootName rootMime rootT children false)
      (handleDeletions stW stW.visited).files
      (handleDeletions stW stW.visited).fs =
      (handleDeletions stW2 stW2.visited, none) := by
    simp only [runPull, htop2]
  -- the second deletion pass is empty
  have hd2 : handleDeletions stW2 stW2.visited = stW2 := by
    refine hd_of_all_visited stW2 stW2.visited ?_
    intro p hp
    have hpmem : p ∈ (handleDeletions stW stW.visited).files := by
      rw [← hfiles2s]
      exact hp
    have hintree : p.1 ∈ treeIds children :=
      hvis1sub p.1 (hst1mem p hpmem)
    exact hcover2 p.1 hintree
  rw [hrun1]
  dsimp only
  rw [hrun2]
  dsimp only
  rw [hd2]
  exact ⟨rfl, rfl, hnew2s, hupd2s, hmov2s, hdel2s, hfiles2s⟩

theorem c4_reconcile_idempotent_witness :
    (runPull sampleEnv sampleRoot [] []).2 = none :=
  (c4_reconcile_idempotent sampleEnv sampleRoot [] []
    (fun _ => rfl) (fun _ => rfl)
    (by simp only [cleanRoot, cleanTree, sampleRoot, Entry.listFails, Entry.children]
        decide)
    (by simp only [treeIds, sampleRoot, Entry.children]
        decide)
    (by unfold keysNodup; decide)).1

theorem serializeMetadata_ne_empty (md : MetadataData) :
    serializeMetadata md ≠ "" := by
  intro h
  have hl := congrArg String.length h
  unfold serializeMetadata at hl
  simp only [String.length_append] at hl
  have h1 : ("\x7b\"version\": " : String).length = 12 := rfl
  have h2 : ("" : String).length = 0 := rfl
  omega

/-- C5 counterexample: save is not atomic.  Opening the metadata file
with mode "w" truncates it before json.dump runs, so an interruption
right after the open leaves an empty file — neither the old contents
nor the complete new document. -/
theorem c5_save_not_atomic_counterexample :
    ¬ saveIsAtomic (some "\x7b\x7d") "2024-01-01T00:00:00" createEmpty := by
  unfold saveIsAtomic
  decide

/-- C5 (amended): save stamps last_sync to the supplied current time,
keeps the record set, and raises a MetadataError when the write fails;
but the write is a direct truncate-then-write, not atomic: whenever the
old contents are not the empty string, the truncated intermediate state
is neither the old nor the new document. -/
theorem c5_save_behavior (writeFails : Bool) (now : String) (md : MetadataData)
    (oldContent : Option String) (hold : oldContent ≠ some "") :
    (writeFails = false →
      saveCall writeFails now md = .ok { md with last_sync := some now }) ∧
    (writeFails = true →
      saveCall writeFails now md = .error "Failed to save metadata") ∧
    (saveResult now md).last_sync = some now ∧
    (saveResult now md).files = md.files ∧
    ¬ saveIsAtomic oldContent now md := by
  refine ⟨?_, ?_, rfl, rfl, ?_⟩
  · intro h
    simp [saveCall, h, saveResult]
  · intro h
    simp [saveCall, h]
  · intro hat
    have hmid := hat (some "") (by simp [saveFileStates])
    rcases hmid with hmid | hmid
    · exact hold hmid.symm
    · rw [Option.some.injEq] at hmid
      exact serializeMetadata_ne_empty _ hmid.symm

theorem c5_save_behavior_witness :
    ¬ saveIsAtomic (some "old") "T" createEmpty :=
  (c5_save_behavior false "T" createEmpty (some "old") (by decide)).2.2.2.2

/-- C6 counterexample: local_path uniqueness is not enforced.  Two
add_file calls for different remote ids with the same path (as two
same-named remote documents in one folder produce) leave two tracked
records claiming the same path. -/
theorem c6_path_uniqueness_counterexample :
    ¬ (trackedPaths (addFile (addFile [] "id1" "Notes.md" "t1" "doc" none "s")
        "id2" "Notes.md" "t1" "doc" none "s")).Nodup := by
  decide

theorem syncFolderTop_keysNodup (env : Env) (root : Entry)
    (st st' : SyncState) (err : Option String)
    (h : syncFolderTop env root st = (st', err))
    (hk : keysNodup st.files) : keysNodup st'.files := by
  obtain ⟨i, n, m, t, cs, lf⟩ := root
  simp only [syncFolderTop] at h
  by_cases hlf : lf = true
  · rw [if_pos hlf] at h
    cases h
    exact hk
  · rw [if_neg hlf] at h
    rcases heq2 : syncEntries env cs [] st with ⟨st1, err1⟩
    rw [heq2] at h
    cases err1 with
    | none =>
      dsimp only at h
      cases h
      exact (syncEntries_frame env (sizeOf cs) cs [] st _ none
        (le_refl _) heq2).2.1 hk
    | some msg =>
      dsimp only at h
      cases h
      exact (syncEntries_frame env (sizeOf cs) cs [] st _ (some msg)
        (le_refl _) heq2).2.1 hk

theorem runPull_keysNodup (env : Env) (root : Entry) (files : Files) (fs : FS)
    (h : keysNodup files) : keysNodup (runPull env root files fs).1.files := by
  unfold runPull
  rcases htop : syncFolderTop env root (initialState files fs) with ⟨stT, errT⟩
  have hT : keysNodup stT.files :=
    syncFolderTop_keysNodup env root _ stT errT htop (by exact h)
  cases errT
  · dsimp only
    exact hd_keysNodup _ _ hT
  · dsimp only
    exact hT

/-- C6 (amended): remote_id keys stay pairwise distinct under add_file,
remove_file, clear and a whole pull pass; but local_path values need
not stay distinct (see the counterexample), since no operation checks
the path of another record. -/
theorem c6_remote_id_uniqueness (files : Files)
    (fileId path modifiedTime fileType : String) (size : Option Nat)
    (now : String) (env : Env) (root : Entry) (fs : FS)
    (h : keysNodup files) :
    keysNodup (addFile files fileId path modifiedTime fileType size now) ∧
    keysNodup (removeFile files fileId) ∧
    keysNodup createEmpty.files ∧
    keysNodup (runPull env root files fs).1.files := by
  refine ⟨keysNodup_dictInsert _ _ _ h, keysNodup_removeFile _ _ h, ?_, ?_⟩
  · unfold keysNodup createEmpty
    simp
  · exact runPull_keysNodup env root files fs h

theorem c6_remote_id_uniqueness_witness :
    keysNodup (addFile [] "id1" "Notes.md" "t1" "doc" none "s") :=
  (c6_remote_id_uniqueness [] "id1" "Notes.md" "t1" "doc" none "s"
    sampleEnv sampleRoot [] (by unfold keysNodup; decide)).1

theorem syncEntries_err_iff (env : Env) :
    ∀ (fuel : Nat) (entries : List Entry) (currentPath : List String)
      (st st' : SyncState) (err : Option String),
      sizeOf entries ≤ fuel →
      syncEntries env entries currentPath st = (st', err) →
      (err ≠ none ↔ treeHasListFailure entries = true) := by
  intro fuel
  induction fuel with
  | zero =>
    intro entries currentPath st st' err hsz
    have := one_le_sizeOf_entries entries
    omega
  | succ fuel ih =>
    intro entries currentPath st st' err hsz heq
    cases entries with
    | nil =>
      rw [syncEntries] at heq
      cases heq
      rw [treeHasListFailure]
      simp
    | cons e rest =>
      obtain ⟨i, n, m, t, cs, lf⟩ := e
      obtain ⟨hcs_lt, hrest_lt⟩ := sizeOf_entry_parts i n m t cs lf rest
      have hcs_le : sizeOf cs ≤ fuel := by omega
      have hrest_le : sizeOf rest ≤ fuel := by omega
      have htfl : treeHasListFailure (Entry.mk i n m t cs lf :: rest) =
          ((isFolder m && (lf || treeHasListFailure cs)) ||
            treeHasListFailure rest) := by
        rw [treeHasListFailure]
      rw [htfl]
      simp only [syncEntries] at heq
      split at heq
      · rename_i hm
        split at heq
        · -- the folder frame raised
          rename_i st3 msg hinner
          cases heq
          split at hinner
          · rename_i hlftrue
            simp [hm, hlftrue]
          · split at hinner
            · rw [Prod.mk.injEq] at hinner
              exact Option.noConfusion hinner.2
            · rename_i st4 msg4 heq2
              have hcs := (ih cs (currentPath ++ [n]) _ st4 (some msg4)
                hcs_le heq2).mp (by simp)
              simp [hm, hcs]
        · -- the folder frame returned none
          rename_i st3 hinner
          split at hinner
          · rw [Prod.mk.injEq] at hinner
            exact Option.noConfusion hinner.2
          · rename_i hlffalse
            split at hinner
            · rename_i st4 heq2
              rw [Prod.mk.injEq] at hinner
              obtain ⟨h31, h32⟩ := hinner
              subst h31
              have hcs : treeHasListFailure cs = false := by
                have := ih cs (currentPath ++ [n]) _ st4 none hcs_le heq2
                rcases hv : treeHasListFailure cs
                · rfl
                · exact absurd (this.mpr hv) (by simp)
              have hlf : lf = false := by
                cases lf
                · rfl
                · exact absurd rfl hlffalse
              have hrest := ih rest currentPath st4 st' err hrest_le heq
              rw [hrest]
              simp [hm, hlf, hcs]
            · rw [Prod.mk.injEq] at hinner
              exact Option.noConfusion hinner.2
      · split at heq
        · rename_i hm hsupp
          have hmfalse : isFolder m = false := Bool.eq_false_iff.mpr hm
          have hrest := ih rest currentPath _ st' err hrest_le heq
          rw [hrest]
          simp [hmfalse]
        · rename_i hm hsupp
          have hmfalse : isFolder m = false := Bool.eq_false_iff.mpr hm
          have hrest := ih rest currentPath _ st' err hrest_le heq
          rw [hrest]
          simp [hmfalse]

/-- C7 (amended): the walk of a pull aborts with a propagated SyncError
exactly when some folder listing reachable by the walk fails (the
root's own listing or one below it); exceptions inside a single item's
sync or move are caught at that item, counted, and do not abort the
pass — as the counterexample shows concretely. -/
theorem c7_folder_failure_aborts (env : Env) (root : Entry) (st : SyncState) :
    (syncFolderTop env root st).2 ≠ none ↔
      (root.listFails = true ∨ treeHasListFailure root.children = true) := by
  obtain ⟨i, n, m, t, cs, lf⟩ := root
  simp only [syncFolderTop, Entry.listFails, Entry.children]
  by_cases hlf : lf = true
  · rw [if_pos hlf]
    simp [hlf]
  · rw [if_neg hlf]
    have hlff : lf = false := by
      cases lf
      · rfl
      · exact absurd rfl hlf
    rcases heq : syncEntries env cs [] st with ⟨st1, err1⟩
    have hiff := syncEntries_err_iff env (sizeOf cs) cs [] st st1 err1
      (le_refl _) heq
    cases err1 with
    | none =>
      dsimp only
      have hcs : treeHasListFailure cs = false := by
        rcases hv : treeHasListFailure cs
        · rfl
        · exact absurd (hiff.mpr hv) (by simp)
      simp [hlff, hcs]
    | some msg =>
      dsimp only
      simp only [ne_eq, Option.some_ne_none, not_false_iff, true_iff]
      exact Or.inr (hiff.mp (by simp))

/-- C7 counterexample: an exception raised while processing an item
(here, a document export failure) is caught at the item, counted as an
error, and does not propagate: the pass over the folder completes
without a SyncError. -/
theorem c7_item_failure_caught_counterexample :
    (syncFolderTop failDocEnv
      (.mk "root" "Root" MIME_folder "t0"
        [.mk "f1" "Notes" MIME_document "t1" [] false] false)
      (initialState [] [])).2 = none ∧
    (syncFolderTop failDocEnv
      (.mk "root" "Root" MIME_folder "t0"
        [.mk "f1" "Notes" MIME_document "t1" [] false] false)
      (initialState [] [])).1.stats.errors = 1 := by
  constructor <;> (simp only [syncFolderTop, syncEntries]; decide)

/-- C1: Metadata.is_file_changed returns true exactly when no record is
stored for the file id, or when the stored record's modified_time
string differs (plain string inequality) from the supplied marker. -/
theorem c1_is_file_changed_iff (files : Files) (fileId marker : String) :
    isFileChanged files fileId marker = true ↔
      getFile files fileId = none ∨
        ∃ r, getFile files fileId = some r ∧ r.modified_time ≠ marker := by
  unfold isFileChanged
  cases h : getFile files fileId with
  | none => simp
  | some r =>
    simp only [h, bne_iff_ne, ne_eq, Option.some.injEq]
    constructor
    · intro hne
      exact Or.inr ⟨r, rfl, hne⟩
    · rintro (hc | ⟨r', hr', hne⟩)
      · simp [h] at hc
      · cases hr'
        exact hne

end GDriveSync
